import Mathlib

/-!
Verification development for the EScript 0.6.7 execution core and its
standard-library modules.

The C++ and EScript sources are shallowly embedded into Lean:

* `EScript/Objects/Callables/UserFunction.h` — the `StaticData` block and the
  `UserFunction` object (parameter metadata, shared static-data reference);
* `Std/PriorityQueue.escript` — the binary-heap priority queue;
* `Std/ConfigManager.escript` — the JSON-backed configuration store;
* `ObjectSerialization.escript` — the identity-tracking serialization context;
* `tests/test.cpp` — the UTF-8 code-point reader used by the test driver.

Machine integers are modelled as `Nat`/`Int` (no overflow occurs in the code
paths modelled here except where an explicit `% 256` cast is written in the
source, which is kept explicitly).  Reference-counted pointers are modelled as
indices into an explicit heap, so that pointer sharing is observable.
-/

set_option maxHeartbeats 1000000

namespace EScriptModel

/-! ## Association-list helpers

EScript `Map` objects and attribute maps are modelled as association lists
(first binding wins on lookup, assignment replaces an existing binding).  -/

/-- Lookup in an association list; models EScript `map[key]` which yields
void (`none`) when the key is absent. -/
def lookupA {V : Type} : List (String × V) → String → Option V
  | [], _ => none
  | (k, v) :: rest, key => if k = key then some v else lookupA rest key

/-- Assignment into an association list; models EScript `map[key] = value`
(replaces an existing binding, otherwise appends). -/
def insertA {V : Type} : List (String × V) → String → V → List (String × V)
  | [], key, v => [(key, v)]
  | (k, w) :: rest, key, v =>
    if k = key then (k, v) :: rest else (k, w) :: insertA rest key v

/-- Removal from an association list; models EScript `map.unset(key)`. -/
def eraseA {V : Type} : List (String × V) → String → List (String × V)
  | [], _ => []
  | (k, w) :: rest, key => if k = key then rest else (k, w) :: eraseA rest key

/-! ## Static Data Blocks — `UserFunction.h`, class `StaticData`

The C++ class holds two parallel vectors:

    std::vector of StringId  staticVariableNames;
    std::vector of ObjRef    staticVariableValues;

`ObjRef` is a reference-counted object pointer; the sentinel stored by
`declareStaticVariable` is `nullptr`, modelled as `none`.  The value type is a
parameter `V` (script objects play no role in these claims beyond identity). -/

structure StaticData (V : Type) where
  staticVariableNames : List String
  staticVariableValues : List (Option V)
deriving Repr, DecidableEq

/-- Model of `StaticData::declareStaticVariable` from `UserFunction.h`:

    uint32_t declareStaticVariable(const StringId and name)  ... it runs
      staticVariableNames.emplace_back(name);
      staticVariableValues.emplace_back(nullptr);
      return static_cast of (staticVariableNames.size()-1);

Returns the updated block together with the returned index. -/
def StaticData.declareStaticVariable {V : Type} (sd : StaticData V) (name : String) :
    StaticData V × Nat :=
  (⟨sd.staticVariableNames ++ [name], sd.staticVariableValues ++ [none]⟩,
    (sd.staticVariableNames ++ [name]).length - 1)

/-- An empty static data block. -/
def StaticData.empty {V : Type} : StaticData V := ⟨[], []⟩

/-! ## UserFunction objects — `UserFunction.h`, class `UserFunction`

Private members of the C++ class:

    CodeFragment codeFragment;
    int line;
    size_t paramCount;
    int minParamValueCount;
    int maxParamValueCount;
    int multiParam;
    InstructionBlock instructions;
    _CountedRef of StaticData  staticData;

The reference-counted `staticData` pointer is modelled as an index
(`staticDataRef`) into an explicit heap of static-data blocks, so pointer
sharing between function objects is observable.  The instruction block is
likewise modelled by a reference (`instructionBlockRef`) into a heap of
compiled blocks; `UserFunction` also inherits an attribute map from
`ExtObject` (functions are first-class objects carrying attributes). -/

structure UserFunction (V : Type) where
  codeFragment : String
  line : Int
  paramCount : Nat
  minParamValueCount : Int
  maxParamValueCount : Int
  multiParam : Int
  instructionBlockRef : Nat
  staticDataRef : Nat
  attributes : List (String × V)
deriving Repr, DecidableEq

/-- A compiled source fragment: the instruction block and static data block
produced by the compiler for one compilation unit, plus the per-function
arity metadata (spec section 6: instruction block, static data block and
parameter-arity metadata are handed over together). -/
structure Fragment where
  code : String
  line : Int
  paramCount : Nat
  minParamValueCount : Int
  maxParamValueCount : Int
  multiParam : Int
  instructionBlockRef : Nat
  staticDataRef : Nat
deriving Repr, DecidableEq

/-- Model of the constructor `UserFunction(StaticData*)` combined with
`setCode`/`setParameterCounts`/`setMultiParam`/`setLine`: instantiating a
Function object from a compiled fragment stores the fragment's metadata and a
reference to the fragment's (shared) StaticData block.  A fresh instance
starts with the given attribute map (normally empty). -/
def instantiateFunction {V : Type} (fr : Fragment) (attrs : List (String × V)) :
    UserFunction V :=
  { codeFragment := fr.code
    line := fr.line
    paramCount := fr.paramCount
    minParamValueCount := fr.minParamValueCount
    maxParamValueCount := fr.maxParamValueCount
    multiParam := fr.multiParam
    instructionBlockRef := fr.instructionBlockRef
    staticDataRef := fr.staticDataRef
    attributes := attrs }

/-- Modelled from the spec: the body of the copy constructor
`UserFunction(const UserFunction and other)` lives in `UserFunction.cpp`,
which is not among the sources (only its declaration in `UserFunction.h` is).
Spec section 4.3: cloning a Function object copies parameter metadata and the
attribute map but keeps the Instruction Block and the Static Data Block
shared; the member `_CountedRef of StaticData` visible in the header indeed
shares the pointee on copy.  `clone()` is `new UserFunction(*this)`. -/
def UserFunction.clone {V : Type} (f : UserFunction V) : UserFunction V :=
  { codeFragment := f.codeFragment
    line := f.line
    paramCount := f.paramCount
    minParamValueCount := f.minParamValueCount
    maxParamValueCount := f.maxParamValueCount
    multiParam := f.multiParam
    instructionBlockRef := f.instructionBlockRef
    staticDataRef := f.staticDataRef
    attributes := f.attributes }

/-! ## The static-variable heap and the engine's slot accesses -/

/-- A heap of static data blocks; `UserFunction.staticDataRef` indexes into
it, so two function objects holding the same index share one block, as two
`_CountedRef of StaticData` members holding the same pointer do. -/
structure SDHeap (V : Type) where
  blocks : List (StaticData V)
deriving Repr

/-- Write one slot of a static data block (run-time mutation of a declared
slot; slots themselves are only created by `declareStaticVariable`). -/
def StaticData.setSlot {V : Type} (sd : StaticData V) (slot : Nat) (v : V) : StaticData V :=
  ⟨sd.staticVariableNames, sd.staticVariableValues.set slot (some v)⟩

/-- Modelled from the spec: the Execution Engine's static-variable store
instruction (the engine, `RuntimeInternals.cpp`, is not among the sources).
Spec sections 3 and 4.3: a static slot write performed through a Function
object mutates the slot of the Static Data Block that the function
references. -/
def writeStaticVar {V : Type} (h : SDHeap V) (f : UserFunction V) (slot : Nat) (v : V) :
    SDHeap V :=
  ⟨h.blocks.modify (fun sd => sd.setSlot slot v) f.staticDataRef⟩

/-- Modelled from the spec: the Execution Engine's static-variable load
instruction (see `writeStaticVar`).  Reads the slot of the referenced Static
Data Block; an undeclared or unset slot yields the `none` sentinel. -/
def readStaticVar {V : Type} (h : SDHeap V) (f : UserFunction V) (slot : Nat) : Option V :=
  ((h.blocks.getD f.staticDataRef StaticData.empty).staticVariableValues.getD slot none)

/-! ## Parameter binding — spec section 4.1 -/

/-- The distinct error kind for argument-count violations (spec section 7). -/
inductive ArityError : Type where
  | arityError
deriving Repr, DecidableEq

/-- Result of binding a list of arguments to a function's parameters:
the values bound to the parameter slots, and, when a variadic marker is
declared, the array collecting the excess arguments. -/
structure ParamBinding (V : Type) where
  boundArgs : List V
  variadicTail : Option (List V)
deriving Repr, DecidableEq

/-- Modelled from the spec: the Execution Engine's parameter binding
(`RuntimeInternals.cpp` is not among the sources; `UserFunction.h` only
declares the metadata getters).  Spec section 4.1: if fewer arguments than
the minimum are supplied, binding fails with an `ArityError`; if more are
supplied than the maximum and a variadic marker is declared, the excess are
collected into an array; if no variadic marker exists, excess arguments are
silently discarded.  Per `UserFunction.h`, a non-negative `multiParam` is the
variadic marker. -/
def bindParameters {V : Type} (f : UserFunction V) (args : List V) :
    Except ArityError (ParamBinding V) :=
  if (args.length : Int) < f.minParamValueCount then
    .error .arityError
  else if 0 ≤ f.multiParam then
    .ok ⟨args.take f.maxParamValueCount.toNat, some (args.drop f.maxParamValueCount.toNat)⟩
  else
    .ok ⟨args.take f.maxParamValueCount.toNat, none⟩

/-! ## Attribute resolution — spec section 4.2

The C++ resolver (`Object.cpp` / `Type.cpp`) is not among the sources; the
EScript standard library (for example `FnDataWrapper._constructor` in
`DataWrapper.escript`, which installs an object-level `doGet` override that
must shadow the type-level one) only exercises it. -/

/-- One level of the type chain: a type's own attribute map and its composed
trait bundles, listed in composition order (earlier compositions first). -/
structure TypeLevel (V : Type) where
  own : List (String × V)
  traits : List (List (String × V))
deriving Repr

/-- Lookup through trait bundles in reverse composition order (the most
recently composed bundle wins — spec section 4.2). -/
def lookupTraits {V : Type} (traits : List (List (String × V))) (name : String) : Option V :=
  match traits with
  | [] => none
  | t :: rest => (lookupTraits rest name).orElse (fun _ => lookupA t name)

/-- Modelled from the spec: resolution within one type of the chain — the
type's own attribute map, then each composed trait bundle in reverse
composition order (spec section 4.2). -/
def resolveInType {V : Type} (t : TypeLevel V) (name : String) : Option V :=
  (lookupA t.own name).orElse (fun _ => lookupTraits t.traits name)

/-- Modelled from the spec: resolution along the base-type chain (single
inheritance, never a cycle by construction — spec section 3 — so the chain is
a list, derived type first). -/
def resolveChain {V : Type} : List (TypeLevel V) → String → Option V
  | [], _ => none
  | t :: rest, name => (resolveInType t name).orElse (fun _ => resolveChain rest name)

/-- An extensible object: its own attribute map and its type chain. -/
structure ExtObjModel (V : Type) where
  own : List (String × V)
  typeChain : List (TypeLevel V)
deriving Repr

/-- Modelled from the spec: the attribute resolver (spec section 4.2) —
check the receiver's own attribute map first (own data always shadows
type-provided behavior), then walk the type chain. -/
def resolveAttr {V : Type} (obj : ExtObjModel V) (name : String) : Option V :=
  (lookupA obj.own name).orElse (fun _ => resolveChain obj.typeChain name)

/-! ## Std/PriorityQueue.escript

The queue stores its elements in the EScript array `arr` (a binary min-heap
laid out breadth-first) and uses the comparison function `compare`; the
default constructor argument is `fn(a,b)... return a<b`, modelled here by the
strict order of a `LinearOrder`.  Array reads `arr[i]` are modelled by
`List.getD` (every access performed by the source is in bounds; the default
is never produced). -/

/-- Parent index: the source computes `((i+1)/2).floor()-1` (used in `add`). -/
def parentIdx (i : Nat) : Nat := (i + 1) / 2 - 1

structure PriorityQueueM (α : Type) where
  arr : List α
deriving Repr, DecidableEq

/-- The `while(i>0)` loop of `PriorityQueue.add`: `e` is the inserted value
(the source compares `compare(e, arr[p])` against the captured `e`, and
`arr[i]` equals `e` throughout), `p` the parent index; on `compare` success
the source runs `t = arr[p]; arr[p] = e; arr[i] = t; i = p`. -/
def siftUpLoop {α : Type} [LinearOrder α] [Inhabited α] (e : α) (i : Nat) (arr : List α) :
    List α :=
  if h : 0 < i then
    if e < arr.getD (parentIdx i) default then
      siftUpLoop e (parentIdx i) ((arr.set (parentIdx i) e).set i (arr.getD (parentIdx i) default))
    else arr
  else arr
termination_by i
decreasing_by simp only [parentIdx]; omega

/-- `PriorityQueue.add`: `arr.pushBack(e)`, then sift the new last element
up. -/
def addPQ {α : Type} [LinearOrder α] [Inhabited α] (q : PriorityQueueM α) (e : α) :
    PriorityQueueM α :=
  ⟨siftUpLoop e ((q.arr ++ [e]).length - 1) (q.arr ++ [e])⟩

/-- The `minI` computation of `PriorityQueue.heapify(i)`: with
`left = ((i+1)*2)-1` and `right = left+1`, `minI` starts at `i`, becomes
`left` if `compare(arr[left],arr[minI])`, then `right` if `right < size`
and `compare(arr[right],arr[minI])` (short-circuit `&&` of the source;
`left+1` is written `(i+1)*2`). -/
def heapifyMinI {α : Type} [LinearOrder α] [Inhabited α] (arr : List α) (i : Nat) : Nat :=
  if (i + 1) * 2 < arr.length then
    (if arr.getD ((i + 1) * 2) default <
        arr.getD (if arr.getD ((i + 1) * 2 - 1) default < arr.getD i default
          then (i + 1) * 2 - 1 else i) default
      then (i + 1) * 2
      else (if arr.getD ((i + 1) * 2 - 1) default < arr.getD i default
        then (i + 1) * 2 - 1 else i))
  else (if arr.getD ((i + 1) * 2 - 1) default < arr.getD i default
    then (i + 1) * 2 - 1 else i)

/-- `PriorityQueue.heapify(i)`: sift the element at `i` down.  When
`left < size` and `minI != i` the source swaps `arr[i]` with `arr[minI]` and
recurses on `minI`; otherwise the array is left as is. -/
def heapifyLoop {α : Type} [LinearOrder α] [Inhabited α] (arr : List α) (i : Nat) :
    List α :=
  if hl : (i + 1) * 2 - 1 < arr.length then
    if hne : heapifyMinI arr i ≠ i then
      heapifyLoop
        ((arr.set i (arr.getD (heapifyMinI arr i) default)).set
          (heapifyMinI arr i) (arr.getD i default))
        (heapifyMinI arr i)
    else arr
  else arr
termination_by arr.length - i
decreasing_by
  simp only [List.length_set]
  unfold heapifyMinI at hne ⊢
  split_ifs at hne ⊢ <;> omega

/-- `PriorityQueue.extract`: returns the root (the minimum) and the shrunk
queue; on `size>1` the source runs `arr[0] = arr.popBack(); heapify(0)`, on
`size==1` it just pops, and on an empty queue it returns void (`none`). -/
def extractPQ {α : Type} [LinearOrder α] [Inhabited α] (q : PriorityQueueM α) :
    Option α × PriorityQueueM α :=
  if q.arr.length > 1 then
    (some (q.arr.getD 0 default),
      ⟨heapifyLoop (q.arr.dropLast.set 0 (q.arr.getD (q.arr.length - 1) default)) 0⟩)
  else if q.arr.length = 1 then
    (some (q.arr.getD 0 default), ⟨q.arr.dropLast⟩)
  else
    (none, q)

/-- `PriorityQueue.get`: `arr.empty() ? void : arr[0]` (does not modify the
queue). -/
def getPQ {α : Type} [Inhabited α] (q : PriorityQueueM α) : Option α :=
  if q.arr.isEmpty then none else some (q.arr.getD 0 default)

/-- `PriorityQueue.count`: `arr.count()`. -/
def countPQ {α : Type} (q : PriorityQueueM α) : Nat := q.arr.length

/-- A freshly constructed queue (the `init` attribute marker creates a new
empty `Array` per instance). -/
def emptyPQ {α : Type} : PriorityQueueM α := ⟨[]⟩

/-- Repeatedly extract until the queue is empty (the driver loop of the
claim; `countPQ` steps of `extractPQ` suffice because each successful extract
removes exactly one element, which the main theorem certifies through the
permutation property). -/
def extractAllFuel {α : Type} [LinearOrder α] [Inhabited α] :
    Nat → PriorityQueueM α → List α
  | 0, _ => []
  | fuel + 1, q =>
    match extractPQ q with
    | (some x, q') => x :: extractAllFuel fuel q'
    | (none, _) => []

/-- Extract every element of the queue in order. -/
def extractAllPQ {α : Type} [LinearOrder α] [Inhabited α] (q : PriorityQueueM α) : List α :=
  extractAllFuel (countPQ q) q

/-- Build a queue by inserting the given values in order. -/
def buildPQ {α : Type} [LinearOrder α] [Inhabited α] (xs : List α) : PriorityQueueM α :=
  xs.foldl addPQ emptyPQ

/-- The binary min-heap layout invariant of `arr`: every non-root element is
at least its parent. -/
def isHeap {α : Type} [LinearOrder α] [Inhabited α] (l : List α) : Prop :=
  ∀ j, 0 < j → j < l.length → l.getD (parentIdx j) default ≤ l.getD j default

/-! ## tests/test.cpp — readCodePoint_utf8

The buffer behind the `char*` pointers is modelled as a list of bytes;
`cursor` and `utf8End` are indices into it.  Each `static_cast to uint8_t`
applied to a read `char` is modelled by an explicit `% 256`.  The function
returns the pair of the returned `uint32_t` and the new cursor (the source
advances the by-reference cursor only on success). -/

/-- `static const uint32_t INVALID_CODE_POINT = ~0;` (all bits set). -/
def INVALID_CODE_POINT : Nat := 2 ^ 32 - 1

/-- Model of `readCodePoint_utf8(const char* and cursor, const char* utf8End)`
from `tests/test.cpp`, kept branch for branch: 1-byte for lead `< 0x80`;
2-byte for lead `< 0xE0` unless the lead is `< 0xC2` or the sequence does not
fit; 3-byte for lead `< 0xF0`; 4-byte for lead `< 0xF5`; otherwise invalid.
Continuation bytes must satisfy `(b AND 0xC0) == 0x80`. -/
def readCodePoint_utf8 (buf : List Nat) (cursor utf8End : Nat) : Nat × Nat :=
  if cursor ≥ utf8End then (INVALID_CODE_POINT, cursor)
  else if buf.getD cursor 0 % 256 < 0x80 then
    (buf.getD cursor 0 % 256, cursor + 1)
  else if buf.getD cursor 0 % 256 < 0xE0 then
    if buf.getD cursor 0 % 256 < 0xC2 ∨ cursor + 1 ≥ utf8End then
      (INVALID_CODE_POINT, cursor)
    else if (buf.getD (cursor + 1) 0 % 256) &&& 0xC0 ≠ 0x80 then
      (INVALID_CODE_POINT, cursor)
    else
      (((buf.getD cursor 0 % 256 &&& 0x1F) <<< 6) +
        (buf.getD (cursor + 1) 0 % 256 &&& 0x3F), cursor + 2)
  else if buf.getD cursor 0 % 256 < 0xF0 then
    if cursor + 2 ≥ utf8End then (INVALID_CODE_POINT, cursor)
    else if (buf.getD (cursor + 1) 0 % 256) &&& 0xC0 ≠ 0x80 ∨
        (buf.getD (cursor + 2) 0 % 256) &&& 0xC0 ≠ 0x80 then
      (INVALID_CODE_POINT, cursor)
    else
      (((buf.getD cursor 0 % 256 &&& 0x0F) <<< 12) +
        ((buf.getD (cursor + 1) 0 % 256 &&& 0x3F) <<< 6) +
        (buf.getD (cursor + 2) 0 % 256 &&& 0x3F), cursor + 3)
  else if buf.getD cursor 0 % 256 < 0xF5 then
    if cursor + 3 ≥ utf8End then (INVALID_CODE_POINT, cursor)
    else if (buf.getD (cursor + 1) 0 % 256) &&& 0xC0 ≠ 0x80 ∨
        (buf.getD (cursor + 2) 0 % 256) &&& 0xC0 ≠ 0x80 ∨
        (buf.getD (cursor + 3) 0 % 256) &&& 0xC0 ≠ 0x80 then
      (INVALID_CODE_POINT, cursor)
    else
      (((buf.getD cursor 0 % 256 &&& 0x07) <<< 18) +
        ((buf.getD (cursor + 1) 0 % 256 &&& 0x3F) <<< 12) +
        ((buf.getD (cursor + 2) 0 % 256 &&& 0x3F) <<< 6) +
        (buf.getD (cursor + 3) 0 % 256 &&& 0x3F), cursor + 4)
  else (INVALID_CODE_POINT, cursor)

/-- The byte-sequence shapes that `readCodePoint_utf8` accepts, written
declaratively: a lead byte in `0x00..0x7F`, or `0xC2..0xDF`, `0xE0..0xEF`,
`0xF0..0xF4` followed by one, two or three continuation bytes of the form
`10xxxxxx`, the whole sequence fitting before `utf8End`.  Within these
lead-byte bounds the code does not reject overlong encodings, surrogates or
values above U+10FFFF. -/
def utf8AcceptedLen (buf : List Nat) (cursor utf8End : Nat) : Option Nat :=
  if cursor < utf8End then
    if buf.getD cursor 0 % 256 < 0x80 then some 1
    else if 0xC2 ≤ buf.getD cursor 0 % 256 ∧ buf.getD cursor 0 % 256 < 0xE0 ∧
        cursor + 1 < utf8End ∧
        (buf.getD (cursor + 1) 0 % 256) &&& 0xC0 = 0x80 then some 2
    else if 0xE0 ≤ buf.getD cursor 0 % 256 ∧ buf.getD cursor 0 % 256 < 0xF0 ∧
        cursor + 2 < utf8End ∧
        (buf.getD (cursor + 1) 0 % 256) &&& 0xC0 = 0x80 ∧
        (buf.getD (cursor + 2) 0 % 256) &&& 0xC0 = 0x80 then some 3
    else if 0xF0 ≤ buf.getD cursor 0 % 256 ∧ buf.getD cursor 0 % 256 < 0xF5 ∧
        cursor + 3 < utf8End ∧
        (buf.getD (cursor + 1) 0 % 256) &&& 0xC0 = 0x80 ∧
        (buf.getD (cursor + 2) 0 % 256) &&& 0xC0 = 0x80 ∧
        (buf.getD (cursor + 3) 0 % 256) &&& 0xC0 = 0x80 then some 4
    else none
  else none

/-- Well-formed UTF-8 byte sequences per the Unicode standard (Table 3-7):
the length of the well-formed sequence starting at `cursor` and fitting
before `utf8End`, or `none`.  This definition follows the claim's words
("complete, well-formed UTF-8 sequence"); it is compared against the decoder
implemented in `tests/test.cpp`. -/
def utf8WellFormedLen (buf : List Nat) (cursor utf8End : Nat) : Option Nat :=
  if cursor < utf8End then
    if buf.getD cursor 0 % 256 ≤ 0x7F then some 1
    else if 0xC2 ≤ buf.getD cursor 0 % 256 ∧ buf.getD cursor 0 % 256 ≤ 0xDF ∧
        cursor + 1 < utf8End ∧
        0x80 ≤ buf.getD (cursor + 1) 0 % 256 ∧ buf.getD (cursor + 1) 0 % 256 ≤ 0xBF
      then some 2
    else if (buf.getD cursor 0 % 256 = 0xE0 ∧ cursor + 2 < utf8End ∧
          0xA0 ≤ buf.getD (cursor + 1) 0 % 256 ∧ buf.getD (cursor + 1) 0 % 256 ≤ 0xBF ∧
          0x80 ≤ buf.getD (cursor + 2) 0 % 256 ∧ buf.getD (cursor + 2) 0 % 256 ≤ 0xBF) ∨
        (0xE1 ≤ buf.getD cursor 0 % 256 ∧ buf.getD cursor 0 % 256 ≤ 0xEC ∧
          cursor + 2 < utf8End ∧
          0x80 ≤ buf.getD (cursor + 1) 0 % 256 ∧ buf.getD (cursor + 1) 0 % 256 ≤ 0xBF ∧
          0x80 ≤ buf.getD (cursor + 2) 0 % 256 ∧ buf.getD (cursor + 2) 0 % 256 ≤ 0xBF) ∨
        (buf.getD cursor 0 % 256 = 0xED ∧ cursor + 2 < utf8End ∧
          0x80 ≤ buf.getD (cursor + 1) 0 % 256 ∧ buf.getD (cursor + 1) 0 % 256 ≤ 0x9F ∧
          0x80 ≤ buf.getD (cursor + 2) 0 % 256 ∧ buf.getD (cursor + 2) 0 % 256 ≤ 0xBF) ∨
        (0xEE ≤ buf.getD cursor 0 % 256 ∧ buf.getD cursor 0 % 256 ≤ 0xEF ∧
          cursor + 2 < utf8End ∧
          0x80 ≤ buf.getD (cursor + 1) 0 % 256 ∧ buf.getD (cursor + 1) 0 % 256 ≤ 0xBF ∧
          0x80 ≤ buf.getD (cursor + 2) 0 % 256 ∧ buf.getD (cursor + 2) 0 % 256 ≤ 0xBF)
      then some 3
    else if (buf.getD cursor 0 % 256 = 0xF0 ∧ cursor + 3 < utf8End ∧
          0x90 ≤ buf.getD (cursor + 1) 0 % 256 ∧ buf.getD (cursor + 1) 0 % 256 ≤ 0xBF ∧
          0x80 ≤ buf.getD (cursor + 2) 0 % 256 ∧ buf.getD (cursor + 2) 0 % 256 ≤ 0xBF ∧
          0x80 ≤ buf.getD (cursor + 3) 0 % 256 ∧ buf.getD (cursor + 3) 0 % 256 ≤ 0xBF) ∨
        (0xF1 ≤ buf.getD cursor 0 % 256 ∧ buf.getD cursor 0 % 256 ≤ 0xF3 ∧
          cursor + 3 < utf8End ∧
          0x80 ≤ buf.getD (cursor + 1) 0 % 256 ∧ buf.getD (cursor + 1) 0 % 256 ≤ 0xBF ∧
          0x80 ≤ buf.getD (cursor + 2) 0 % 256 ∧ buf.getD (cursor + 2) 0 % 256 ≤ 0xBF ∧
          0x80 ≤ buf.getD (cursor + 3) 0 % 256 ∧ buf.getD (cursor + 3) 0 % 256 ≤ 0xBF) ∨
        (buf.getD cursor 0 % 256 = 0xF4 ∧ cursor + 3 < utf8End ∧
          0x80 ≤ buf.getD (cursor + 1) 0 % 256 ∧ buf.getD (cursor + 1) 0 % 256 ≤ 0x8F ∧
          0x80 ≤ buf.getD (cursor + 2) 0 % 256 ∧ buf.getD (cursor + 2) 0 % 256 ≤ 0xBF ∧
          0x80 ≤ buf.getD (cursor + 3) 0 % 256 ∧ buf.getD (cursor + 3) 0 % 256 ≤ 0xBF)
      then some 4
    else none
  else none

/-- The scalar value of a UTF-8 sequence of the given length starting at
`cursor`, written with plain arithmetic on the payload bits (the spec-side
decoding, to be compared with the decoder's shifted-mask arithmetic). -/
def utf8SpecValue (buf : List Nat) (cursor : Nat) : Nat → Nat
  | 1 => buf.getD cursor 0 % 256
  | 2 => (buf.getD cursor 0 % 256 - 0xC0) * 0x40 +
      (buf.getD (cursor + 1) 0 % 256 - 0x80)
  | 3 => (buf.getD cursor 0 % 256 - 0xE0) * 0x1000 +
      (buf.getD (cursor + 1) 0 % 256 - 0x80) * 0x40 +
      (buf.getD (cursor + 2) 0 % 256 - 0x80)
  | 4 => (buf.getD cursor 0 % 256 - 0xF0) * 0x40000 +
      (buf.getD (cursor + 1) 0 % 256 - 0x80) * 0x1000 +
      (buf.getD (cursor + 2) 0 % 256 - 0x80) * 0x40 +
      (buf.getD (cursor + 3) 0 % 256 - 0x80)
  | _ => 0

/-! ## Std/ConfigManager.escript

The manager stores JSON-expressable data in the EScript `Map` attribute
`data`; nested groups are addressed by dot-separated keys.  EScript maps are
modelled as association lists (`JMap`), void as `Option.none`.  The source's
deep copies go through `parseJSON(toJSON(x))`; on JSON-expressible data this
round-trip is the identity up to value equality, so `deepCopy` is the
identity function of the model (object identity and in-place mutation are not
observable in a pure embedding), and the source's serialized-string
comparison `toJSON(a) != toJSON(b)` is value inequality. -/

/-- JSON-expressible values (a JSON `null` read back as void marks absence,
as in the source, and is represented by `Option.none` outside `JVal`). -/
inductive JVal : Type where
  | num (n : Int)
  | str (s : String)
  | jbool (b : Bool)
  | arr (elems : List JVal)
  | map (entries : List (String × JVal))

abbrev JMap := List (String × JVal)

/-- The JSON round-trip `parseJSON(toJSON(v))` used by the source for deep
copies; the identity on JSON-expressible values. -/
def deepCopy (v : JVal) : JVal := v

/-- Split a character list at every dot (the semantics of EScript
`key.split(".")` for the one-character separator): always returns at least
one piece; empty pieces around consecutive or border dots are kept. -/
def splitDots : List Char → List (List Char)
  | [] => [[]]
  | c :: rest =>
    if c = '.' then [] :: splitDots rest
    else
      match splitDots rest with
      | x :: xs => (c :: x) :: xs
      | [] => [[c]]

/-- `key.split(".")`: the source takes this branch when the key contains a
dot; for a dot-free key it uses the key unsplit, which coincides with the
one-element split result. -/
def splitKey (key : String) : List String :=
  (splitDots key.data).map (fun cs => String.mk cs)

/-- The final key component (`groupNames.popBack()` of the source). -/
def lastKey (key : String) : String := (splitKey key).getLastD ""

/-- The `foreach(groupNames ...)` descent shared by `getValue`/`unsetValue`:
follow the subgroup names; `none` models the early return taken when an
intermediate entry is missing or not a `Map`. -/
def lookupGroups : JMap → List String → Option JMap
  | g, [] => some g
  | g, name :: rest =>
    match lookupA g name with
    | some (JVal.map m) => lookupGroups m rest
    | _ => none

/-- The descent-and-store loop of `ConfigManager.setValue`: descend along the
group names, replacing a missing or non-`Map` intermediate entry by a fresh
`Map`; at the end store a deep clone of the value.  The source writes only
when the stored JSON differs (the `data changed?` check, whose only further
effect is the out-of-scope autoSave); when the serialized forms are equal the
stored value equals the new one and the write is the identity
(`insertA_lookupA_self` below), so the unguarded write has the same store. -/
def ConfigManager.setValueGo : JMap → List String → String → JVal → JMap
  | group, [], k, v => insertA group k (deepCopy v)
  | group, g :: gs, k, v =>
    match lookupA group g with
    | some (JVal.map m) => insertA group g (JVal.map (ConfigManager.setValueGo m gs k v))
    | _ => insertA group g (JVal.map (ConfigManager.setValueGo [] gs k v))

/-- The loop of `ConfigManager.unsetValue`: descend (returning the store
unchanged when an intermediate entry is not a `Map`) and `unset` the final
key. -/
def ConfigManager.unsetValueGo : JMap → List String → String → JMap
  | group, [], k => eraseA group k
  | group, g :: gs, k =>
    match lookupA group g with
    | some (JVal.map m) => insertA group g (JVal.map (ConfigManager.unsetValueGo m gs k))
    | _ => group

/-- `ConfigManager.setValue(key, value)`: a void value removes the entry;
otherwise the value is stored under the dot-path. -/
def ConfigManager.setValue (data : JMap) (key : String) (value : Option JVal) : JMap :=
  match value with
  | none => ConfigManager.unsetValueGo data (splitKey key).dropLast (lastKey key)
  | some v => ConfigManager.setValueGo data (splitKey key).dropLast (lastKey key) v

/-- `ConfigManager.getValue(key, defaultValue)`: returns the pair of the
returned value and the (possibly updated) data store.  A failed descent or a
void entry returns the default and, when the default is non-void, memorizes
it via `setValue(fullKey, defaultValue)`; a found entry is returned as a deep
copy. -/
def ConfigManager.getValue (data : JMap) (key : String) (defaultValue : Option JVal) :
    Option JVal × JMap :=
  match lookupGroups data (splitKey key).dropLast with
  | none =>
    match defaultValue with
    | some d => (some d, ConfigManager.setValue data key (some d))
    | none => (none, data)
  | some group =>
    match lookupA group (lastKey key) with
    | some v => (some (deepCopy v), data)
    | none =>
      match defaultValue with
      | some d => (some d, ConfigManager.setValue data key (some d))
      | none => (none, data)

/-- A key is unset when the group descent fails or the final entry is void
(`getValue` without default returns void exactly then). -/
def ConfigManager.isUnset (data : JMap) (key : String) : Prop :=
  match lookupGroups data (splitKey key).dropLast with
  | none => True
  | some group => lookupA group (lastKey key) = none

/-! ## ObjectSerialization.escript

The serialization context of `ObjectSerialization.Context` walks an object
graph; objects already described in the same context are emitted as a
back-reference `##REF##` instead of a second full description.  ExtObjects
live in a heap (addresses are indices); the per-object
`__ObjectSerialization_objNr` that the source allocates from a global counter
is modelled by the object's heap address (it serves only as a stable identity
key for `objRegistry_NrToObjId`).  Context-unique object ids
(`this.id+"."+(++this.counter)`) are modelled by the counter value.  The
ExtObject type handler has identity tracking enabled and describes/restores
the attribute map (`getAttributeDescription` / `applyAttributesFromDescription`). -/

/-- An attribute value: a JSON-primitive or a reference to an ExtObject. -/
inductive SVal : Type where
  | svoid
  | snum (n : Int)
  | sstr (s : String)
  | sref (addr : Nat)
deriving Repr, DecidableEq

/-- True for non-reference (primitive) values. -/
def isPrimB : SVal → Bool
  | .sref _ => false
  | _ => true

abbrev ObjAttrs := List (String × SVal)

/-- The heap of ExtObjects; an address is an index into `objs`. -/
structure ObjHeap where
  objs : List ObjAttrs
deriving Repr

/-- The attribute map of the object at address `a`. -/
def ObjHeap.attrsAt (h : ObjHeap) (a : Nat) : ObjAttrs := h.objs.getD a []

/-- Association-list lookup for `Nat` keys (the id registries of a
Context). -/
def lookupN {V : Type} : List (Nat × V) → Nat → Option V
  | [], _ => none
  | (k, v) :: rest, key => if k = key then some v else lookupN rest key

/-- A serialized description: the JSON value produced by
`createDescription`.  `dref id` is the map with the single key `##REF##`;
`dobj id attrs` is the map with `##ID##`, `##TYPE## = ExtObject` and the
attribute description map. -/
inductive Descr : Type where
  | dvoid
  | dnum (n : Int)
  | dstr (s : String)
  | dref (id : Nat)
  | dobj (id : Nat) (attrs : List (String × Descr))
deriving Repr

/-- The description of a primitive value (handled by the `SimpleTypeHandler`
registrations: simple types are expressed directly in JSON). -/
def descrOfPrim : SVal → Descr
  | .svoid => .dvoid
  | .snum n => .dnum n
  | .sstr s => .dstr s
  | .sref _ => .dvoid

/-- EScript `String.beginsWith`, structurally over the character lists (the
first argument is the candidate prefix, the second the string searched). -/
def beginsWithL : List Char → List Char → Bool
  | [], _ => true
  | _ :: _, [] => false
  | p :: ps, c :: cs => p == c && beginsWithL ps cs

/-- `s.beginsWith(t)` of EScript strings. -/
def beginsWith (s t : String) : Bool := beginsWithL t.data s.data

/-- `s.endsWith(t)` of EScript strings. -/
def endsWith (s t : String) : Bool := beginsWithL t.data.reverse s.data.reverse

/-- The keys `getAttributeDescription` refuses to describe:
`!key.beginsWith("__")` guards the description loop. -/
def serSkipped (k : String) : Bool := beginsWith k "__"

/-- Keys of the reserved meta form `##...##` (`##ID##`, `##TYPE##`,
`##REF##`, ...): `key.beginsWith("##") && key.endsWith("##")`. -/
def metaKey (k : String) : Bool := beginsWith k "##" && endsWith k "##"

/-- The keys `applyAttributesFromDescription` skips when restoring:
`key.beginsWith("__") || (key.beginsWith("##") && key.endsWith("##"))`. -/
def restoreSkipped (k : String) : Bool := serSkipped k || metaKey k

/-- Serialization context state: `objRegistry_NrToObjId` (object identity to
context-unique id) and the id counter. -/
structure SerCtx where
  objRegistry_NrToObjId : List (Nat × Nat)
  counter : Nat
deriving Repr

mutual
/-- `Context.createDescription` combined with the ExtObject
`GenericTypeHandler.createDescription` (identity tracking on): a primitive is
emitted directly; for an object, a context id already registered for it
yields the back-reference `##REF##`; otherwise the object is registered
under a fresh id (`ctxt.registerObject(obj)`) before its attributes are
described, and the full description is emitted.  The source recurses through
the heap without explicit bound (termination comes from every new object
being registered first); `fuel` makes that argument explicit — each fresh
object consumes one unit, so any fuel larger than the number of objects is
enough, and `Context.serialize` below supplies it. -/
def createDescrVal (h : ObjHeap) (fuel : Nat) (v : SVal) (ctx : SerCtx) : Descr × SerCtx :=
  match v with
  | .svoid => (.dvoid, ctx)
  | .snum n => (.dnum n, ctx)
  | .sstr s => (.dstr s, ctx)
  | .sref a =>
    match lookupN ctx.objRegistry_NrToObjId a with
    | some id => (.dref id, ctx)
    | none =>
      match fuel with
      | 0 => (.dvoid, ctx)
      | fuel' + 1 =>
        let id := ctx.counter + 1
        let ctx1 : SerCtx := ⟨(a, id) :: ctx.objRegistry_NrToObjId, id⟩
        let p := createDescrAttrs h fuel' (h.attrsAt a) ctx1
        (.dobj id p.1, p.2)
termination_by (fuel, 0)

/-- `Context.getAttributeDescription`: describe each attribute in order,
threading the context; keys beginning `__` are skipped
(`if(!key.beginsWith("__"))`). -/
def createDescrAttrs (h : ObjHeap) (fuel : Nat) (attrs : ObjAttrs) (ctx : SerCtx) :
    List (String × Descr) × SerCtx :=
  match attrs with
  | [] => ([], ctx)
  | (k, v) :: rest =>
    if serSkipped k then createDescrAttrs h fuel rest ctx
    else
      ((k, (createDescrVal h fuel v ctx).1) ::
          (createDescrAttrs h fuel rest (createDescrVal h fuel v ctx).2).1,
        (createDescrAttrs h fuel rest (createDescrVal h fuel v ctx).2).2)
termination_by (fuel, attrs.length + 1)
end

/-- `Context.serialize(obj)`: serialize in a fresh context; the heap size
plus one bounds the number of fresh objects any walk can register. -/
def Context.serialize (h : ObjHeap) (rootAddr : Nat) : Descr :=
  (createDescrVal h (h.objs.length + 1) (.sref rootAddr) ⟨[], 0⟩).1

/-- Deserialization context: the heap of reconstructed objects (allocation
appends) and `objRegistry_ObjIdToObj` (context id to reconstructed
address). -/
structure DeCtx where
  heap : List ObjAttrs
  objRegistry_ObjIdToObj : List (Nat × Nat)
deriving Repr

mutual
/-- `Context.createObject` combined with the ExtObject
`GenericTypeHandler.createObject`: primitives are returned directly;
`##REF##` resolves through the registry (an unknown reference warns and
yields void); a description carrying a known `##ID##` returns the already
reconstructed object; otherwise the factory creates a fresh (empty)
ExtObject, `registerObjectIfNecessary` registers it *before* the
initializers run, and `applyAttributesFromDescription` fills the attribute
map. -/
def createObjVal : Descr → DeCtx → SVal × DeCtx
  | .dvoid, ctx => (.svoid, ctx)
  | .dnum n, ctx => (.snum n, ctx)
  | .dstr s, ctx => (.sstr s, ctx)
  | .dref id, ctx =>
    match lookupN ctx.objRegistry_ObjIdToObj id with
    | some a => (.sref a, ctx)
    | none => (.svoid, ctx)
  | .dobj id attrs, ctx =>
    match lookupN ctx.objRegistry_ObjIdToObj id with
    | some a => (.sref a, ctx)
    | none =>
      (.sref ctx.heap.length,
        createObjAttrs attrs ctx.heap.length
          ⟨ctx.heap ++ [[]], (id, ctx.heap.length) :: ctx.objRegistry_ObjIdToObj⟩)

/-- `Context.applyAttributesFromDescription`: reconstruct each attribute
value and set it on the object at address `a`; keys beginning `__` and keys
of the reserved `##...##` form are skipped (`continue`). -/
def createObjAttrs : List (String × Descr) → Nat → DeCtx → DeCtx
  | [], _, ctx => ctx
  | (k, d) :: rest, a, ctx =>
    if restoreSkipped k then createObjAttrs rest a ctx
    else
      createObjAttrs rest a
        ⟨(createObjVal d ctx).2.heap.modify
            (fun attrs => insertA attrs k (createObjVal d ctx).1) a,
          (createObjVal d ctx).2.objRegistry_ObjIdToObj⟩
end

/-- `Context.createFromString` on a fresh context (the parse step is the
inverse of the JSON printing of descriptions). -/
def Context.createFromDescr (d : Descr) : SVal × DeCtx :=
  createObjVal d ⟨[], []⟩

/-- The deserializing registry corresponding to a serializing registry: ids
are handed out as `1, 2, ...` in first-visit order and the deserializer
allocates addresses `0, 1, ...` in the same order, so the object registered
under id `id` is reconstructed at address `id - 1`. -/
def regD (reg : List (Nat × Nat)) : List (Nat × Nat) :=
  reg.map (fun e => (e.2, e.2 - 1))

/-- `[n, n-1, ..., 1]`. -/
def countdown : Nat → List Nat
  | 0 => []
  | n + 1 => (n + 1) :: countdown n

/-- Well-formedness of a serializing context along a run: every object is
registered at most once, and the registered ids are exactly
`counter, ..., 1` (newest first), as `registerObject` hands them out. -/
def GoodReg (ctx : SerCtx) : Prop :=
  (ctx.objRegistry_NrToObjId.map Prod.fst).Nodup ∧
  ctx.objRegistry_NrToObjId.map Prod.snd = countdown ctx.counter

/-- The number of registered objects that live in the heap. -/
def regInRange (h : ObjHeap) (ctx : SerCtx) : Nat :=
  (ctx.objRegistry_NrToObjId.filter (fun e => e.1 < h.objs.length)).length

/-- The fuel suffices for the rest of the run: every fresh descent consumes
one unit of fuel and registers one previously unregistered object (only
heap objects can have attributes to descend into), so fuel plus the number
of registered heap objects stays above the heap size. -/
def SufFuel (h : ObjHeap) (ctx : SerCtx) (fuel : Nat) : Prop :=
  h.objs.length + 1 ≤ fuel + regInRange h ctx

/-- The simulation relation between the serializing context and the
deserializing context at the matching point of the two runs. -/
def InvSD (sctx : SerCtx) (dctx : DeCtx) : Prop :=
  dctx.objRegistry_ObjIdToObj = regD sctx.objRegistry_NrToObjId ∧
  dctx.heap.length = sctx.counter

/-- The value the deserializer reconstructs for a source value, read off the
final serializing registry: a reference to the object registered under id
`id` comes back as a reference to address `id - 1`. -/
def trVal (s : SerCtx) : SVal → SVal
  | .sref a => .sref ((lookupN s.objRegistry_NrToObjId a).getD 1 - 1)
  | v => v

/-- Replay of `applyAttributesFromDescription` on the source attribute list:
skipped keys are dropped, every other value is reconstructed through
`trVal`. -/
def applyTrInserts (s : SerCtx) (attrs0 : ObjAttrs) (l : ObjAttrs) : ObjAttrs :=
  l.foldl
    (fun acc e => if restoreSkipped e.1 then acc else insertA acc e.1 (trVal s e.2))
    attrs0

/-- Value-level motive of the serialize/deserialize simulation: from
simulation-related contexts, the deserializer turns the produced description
back into the `trVal`-image of the source value, the simulation relation is
re-established, and already filled heap cells are untouched; the serializing
registry only grows, and a reference value is described as a full
description or a back-reference carrying the id its target is registered
under. -/
def PVal (h : ObjHeap) (fuel : Nat) : Prop :=
  ∀ (v : SVal) (sctx sctx2 : SerCtx) (d : Descr) (dctx : DeCtx),
    createDescrVal h fuel v sctx = (d, sctx2) →
    GoodReg sctx → SufFuel h sctx fuel → InvSD sctx dctx →
    GoodReg sctx2 ∧
    (∃ new, sctx2.objRegistry_NrToObjId = new ++ sctx.objRegistry_NrToObjId) ∧
    (∀ a, v = SVal.sref a → ∃ id,
      lookupN sctx2.objRegistry_NrToObjId a = some id ∧
      (d = Descr.dref id ∨ ∃ cA, d = Descr.dobj id cA)) ∧
    (createObjVal d dctx).1 = trVal sctx2 v ∧
    InvSD sctx2 (createObjVal d dctx).2 ∧
    dctx.heap.length ≤ (createObjVal d dctx).2.heap.length ∧
    (∀ j, j < dctx.heap.length →
      (createObjVal d dctx).2.heap.getD j [] = dctx.heap.getD j [])

/-- Attribute-level motive of the simulation: additionally, the described
keys are exactly the non-skipped source keys, and the heap cell being
filled ends up holding the `applyTrInserts`-replay of the source attribute
list. -/
def PAttrs (h : ObjHeap) (fuel : Nat) : Prop :=
  ∀ (attrs : ObjAttrs) (sctx sctx2 : SerCtx) (attrs2 : List (String × Descr))
      (dctx : DeCtx) (aIdx : Nat),
    createDescrAttrs h fuel attrs sctx = (attrs2, sctx2) →
    GoodReg sctx → SufFuel h sctx fuel → InvSD sctx dctx →
    (∀ e ∈ attrs, metaKey e.1 = false) →
    aIdx < dctx.heap.length →
    GoodReg sctx2 ∧
    (∃ new, sctx2.objRegistry_NrToObjId = new ++ sctx.objRegistry_NrToObjId) ∧
    attrs2.map Prod.fst
      = (attrs.filter (fun e => !serSkipped e.1)).map Prod.fst ∧
    InvSD sctx2 (createObjAttrs attrs2 aIdx dctx) ∧
    dctx.heap.length ≤ (createObjAttrs attrs2 aIdx dctx).heap.length ∧
    (∀ j, j < dctx.heap.length → j ≠ aIdx →
      (createObjAttrs attrs2 aIdx dctx).heap.getD j [] = dctx.heap.getD j []) ∧
    (createObjAttrs attrs2 aIdx dctx).heap.getD aIdx []
      = applyTrInserts sctx2 (dctx.heap.getD aIdx []) attrs

/-- The example from the head of `ObjectSerialization.escript`: `someObject`
(address 0) holds the same `dataObject` (address 1) in its attributes
`data1` and `data2`. -/
def exampleHeap : ObjHeap :=
  ⟨[[("data1", SVal.sref 1), ("data2", SVal.sref 1)], [("data", SVal.snum 1)]]⟩

/-! ########################################################################
    Theorems
######################################################################### -/

/-! ### Association-list lemmas -/

theorem lookupA_insertA_self {V : Type} (m : List (String × V)) (k : String) (v : V) :
    lookupA (insertA m k v) k = some v := by
  induction m with
  | nil => simp [insertA, lookupA]
  | cons hd tl ih =>
    obtain ⟨k0, v0⟩ := hd
    by_cases h : k0 = k
    · simp [insertA, lookupA, h]
    · simp [insertA, lookupA, h, ih]

theorem lookupA_insertA_ne {V : Type} (m : List (String × V)) (k k' : String) (v : V)
    (h : k ≠ k') : lookupA (insertA m k v) k' = lookupA m k' := by
  induction m with
  | nil => simp [insertA, lookupA, h]
  | cons hd tl ih =>
    obtain ⟨k0, v0⟩ := hd
    by_cases h0 : k0 = k
    · subst h0
      simp [insertA, lookupA, h]
    · simp [insertA, lookupA, h0, ih]

/-! ### C7 — static variable slots are append-only and created unset -/

/-- C7: every call to `declareStaticVariable(name)` appends exactly one name
and one sentinel (`none`) value, returns the index of the new slot (the
previous slot count), leaves all previously declared slots and their values
unchanged, and keeps the name vector and the value vector the same length
(given that they were the same length before, which is an invariant of the
class: both vectors only ever grow together). -/
theorem declareStaticVariable_spec {V : Type} (sd : StaticData V) (name : String)
    (hlen : sd.staticVariableNames.length = sd.staticVariableValues.length) :
    (sd.declareStaticVariable name).2 = sd.staticVariableNames.length ∧
    (sd.declareStaticVariable name).1.staticVariableNames
        = sd.staticVariableNames ++ [name] ∧
    (sd.declareStaticVariable name).1.staticVariableValues
        = sd.staticVariableValues ++ [none] ∧
    ((sd.declareStaticVariable name).1.staticVariableValues.get?
        (sd.declareStaticVariable name).2 = some none) ∧
    (∀ j, j < sd.staticVariableNames.length →
      (sd.declareStaticVariable name).1.staticVariableNames.get? j
        = sd.staticVariableNames.get? j) ∧
    (∀ j, j < sd.staticVariableValues.length →
      (sd.declareStaticVariable name).1.staticVariableValues.get? j
        = sd.staticVariableValues.get? j) ∧
    (sd.declareStaticVariable name).1.staticVariableNames.length
        = (sd.declareStaticVariable name).1.staticVariableValues.length := by
  refine ⟨?_, rfl, rfl, ?_, ?_, ?_, ?_⟩
  · simp [StaticData.declareStaticVariable]
  · simp only [StaticData.declareStaticVariable, List.get?_eq_getElem?,
      List.length_append, List.length_singleton, Nat.add_sub_cancel]
    rw [List.getElem?_append_right (by omega), hlen]
    simp
  · intro j hj
    simp only [StaticData.declareStaticVariable, List.get?_eq_getElem?]
    rw [List.getElem?_append_left hj]
  · intro j hj
    simp only [StaticData.declareStaticVariable, List.get?_eq_getElem?]
    rw [List.getElem?_append_left hj]
  · simp [StaticData.declareStaticVariable, hlen]

/-- Witness for C7 at a concrete block with one declared slot. -/
theorem declareStaticVariable_spec_witness :
    (⟨["a"], [some 7]⟩ : StaticData Nat).staticVariableNames.length
        = (⟨["a"], [some 7]⟩ : StaticData Nat).staticVariableValues.length ∧
    ((⟨["a"], [some 7]⟩ : StaticData Nat).declareStaticVariable "b").2 = 1 := by
  refine ⟨by decide, ?_⟩
  exact (declareStaticVariable_spec (⟨["a"], [some 7]⟩ : StaticData Nat) "b" (by decide)).1

/-! ### Indexing lemmas for `List.getD` -/

theorem getD_modify_self {α : Type} (f : α → α) (i : Nat) (l : List α) (d : α)
    (h : i < l.length) : (l.modify f i).getD i d = f (l.getD i d) := by
  rw [List.getD_eq_getElem?_getD, List.getD_eq_getElem?_getD, List.getElem?_modify,
    List.getElem?_eq_getElem h]
  simp

theorem getD_set_self {α : Type} (l : List α) (i : Nat) (a d : α)
    (h : i < l.length) : (l.set i a).getD i d = a := by
  rw [List.getD_eq_getElem?_getD, List.getElem?_set_eq_of_lt a h]
  rfl

theorem getD_set_ne {α : Type} (l : List α) (i j : Nat) (a d : α)
    (h : i ≠ j) : (l.set i a).getD j d = l.getD j d := by
  rw [List.getD_eq_getElem?_getD, List.getD_eq_getElem?_getD, List.getElem?_set_ne h]

/-! ### C2 — sibling Functions share one Static Data Block -/

/-- C2: any two Function objects instantiated from the same compiled fragment
reference one and the same Static Data Block, so a static-slot write
performed through one of them is observable when the same slot is read
through the other (for any declared slot of the shared block). -/
theorem sharedStaticData_write_read {V : Type} (fr : Fragment)
    (attrs1 attrs2 : List (String × V)) (h : SDHeap V) (slot : Nat) (v : V)
    (hblk : fr.staticDataRef < h.blocks.length)
    (hslot : slot <
      (h.blocks.getD fr.staticDataRef StaticData.empty).staticVariableValues.length) :
    (instantiateFunction fr attrs1 : UserFunction V).staticDataRef
        = (instantiateFunction fr attrs2 : UserFunction V).staticDataRef ∧
    readStaticVar (writeStaticVar h (instantiateFunction fr attrs1) slot v)
        (instantiateFunction fr attrs2) slot = some v := by
  refine ⟨rfl, ?_⟩
  simp only [readStaticVar, writeStaticVar, instantiateFunction]
  rw [getD_modify_self _ _ _ _ hblk]
  simp only [StaticData.setSlot]
  exact getD_set_self _ _ _ _ hslot

/-- Witness for C2: two functions from one fragment, a one-block heap. -/
theorem sharedStaticData_write_read_witness :
    readStaticVar
        (writeStaticVar (⟨[⟨["s"], [none]⟩]⟩ : SDHeap Nat)
          (instantiateFunction ⟨"fn(){}", 1, 0, 0, 0, -1, 0, 0⟩ []) 0 42)
        (instantiateFunction ⟨"fn(){}", 1, 0, 0, 0, -1, 0, 0⟩ [("m", 5)]) 0 = some 42 :=
  (sharedStaticData_write_read ⟨"fn(){}", 1, 0, 0, 0, -1, 0, 0⟩ [] [("m", 5)]
    (⟨[⟨["s"], [none]⟩]⟩ : SDHeap Nat) 0 42 (by decide) (by decide)).2

/-! ### Heap-index arithmetic and further list lemmas -/

theorem parentIdx_lt {j : Nat} (h : 0 < j) : parentIdx j < j := by
  unfold parentIdx
  omega

theorem parentIdx_child_iff {i j : Nat} (h : 0 < j) :
    parentIdx j = i ↔ j = 2 * i + 1 ∨ j = 2 * i + 2 := by
  unfold parentIdx
  omega

theorem getD_append_left {α : Type} (l l' : List α) (d : α) (j : Nat)
    (h : j < l.length) : (l ++ l').getD j d = l.getD j d := by
  rw [List.getD_eq_getElem?_getD, List.getD_eq_getElem?_getD, List.getElem?_append_left h]

theorem getD_concat_last {α : Type} (l : List α) (e d : α) :
    (l ++ [e]).getD l.length d = e := by
  rw [List.getD_eq_getElem?_getD, List.getElem?_append_right (Nat.le_refl _)]
  simp

/-- Reading any cell of a double `set` (the swap idiom of the source: the
reads for the temporary happen before the writes). -/
theorem getD_swap_pair {α : Type} (l : List α) (p i : Nat) (a b d : α)
    (hp : p < l.length) (hi : i < l.length) (k : Nat) :
    ((l.set p a).set i b).getD k d =
      if k = i then b else if k = p then a else l.getD k d := by
  by_cases h1 : k = i
  · subst h1
    rw [if_pos rfl]
    exact getD_set_self _ _ _ _ (by simpa using hi)
  · rw [getD_set_ne _ _ _ _ _ (Ne.symm h1), if_neg h1]
    by_cases h2 : k = p
    · subst h2
      rw [if_pos rfl]
      exact getD_set_self _ _ _ _ hp
    · rw [getD_set_ne _ _ _ _ _ (Ne.symm h2), if_neg h2]

theorem getD_cons_set_perm {α : Type} [Inhabited α] (xs : List α) :
    ∀ (k : Nat) (x : α), k < xs.length →
      (xs.getD k default :: xs.set k x).Perm (x :: xs) := by
  induction xs with
  | nil =>
    intro k x h
    simp at h
  | cons y ys ih =>
    intro k x h
    cases k with
    | zero => simpa using List.Perm.swap x y ys
    | succ k =>
      have hk : k < ys.length := by simpa using h
      have h1 : (ys.getD k default :: y :: ys.set k x).Perm
          (y :: ys.getD k default :: ys.set k x) := List.Perm.swap _ _ _
      have h2 : (y :: ys.getD k default :: ys.set k x).Perm (y :: x :: ys) :=
        (ih k x hk).cons y
      have h3 : (y :: x :: ys).Perm (x :: y :: ys) := List.Perm.swap _ _ _
      simpa using (h1.trans h2).trans h3

/-- Swapping two cells (via the double-`set` idiom) permutes the list. -/
theorem swap_pair_perm {α : Type} [Inhabited α] :
    ∀ (l : List α) (i j : Nat), i < j → j < l.length →
      ((l.set i (l.getD j default)).set j (l.getD i default)).Perm l := by
  intro l
  induction l with
  | nil =>
    intro i j hij hj
    simp at hj
  | cons y ys ih =>
    intro i j hij hj
    cases i with
    | zero =>
      cases j with
      | zero => omega
      | succ k =>
        have hk : k < ys.length := by simpa using hj
        simpa using getD_cons_set_perm ys k y hk
    | succ i' =>
      cases j with
      | zero => omega
      | succ j' =>
        have h := ih i' j' (by omega) (by simpa using hj)
        simpa using h.cons y

theorem last_cons_dropLast_perm {α : Type} [Inhabited α] (m : List α) (h : m ≠ []) :
    (m.getD (m.length - 1) default :: m.dropLast).Perm m := by
  have hlen : 0 < m.length := List.length_pos.mpr h
  have hgv : m.getD (m.length - 1) default = m.getLast h := by
    rw [List.getLast_eq_getElem, List.getD_eq_getElem?_getD,
      List.getElem?_eq_getElem (by omega)]
    rfl
  rw [hgv]
  have := List.perm_append_singleton (m.getLast h) m.dropLast
  conv_rhs => rw [← List.dropLast_append_getLast h]
  exact this.symm

/-! ### C3 — cloning a Function copies metadata, shares the blocks -/

/-- C3: `clone(f)` produces a Function whose parameter metadata (fixed
parameter count, minimum and maximum argument counts) and attribute map equal
those of `f`, and which holds the same Instruction Block reference and the
same Static Data Block reference as `f` — shared identity, so a static-slot
write performed through the clone is observable through `f`. -/
theorem userFunction_clone_spec {V : Type} (f : UserFunction V) (h : SDHeap V)
    (slot : Nat) (v : V)
    (hblk : f.staticDataRef < h.blocks.length)
    (hslot : slot <
      (h.blocks.getD f.staticDataRef StaticData.empty).staticVariableValues.length) :
    f.clone.paramCount = f.paramCount ∧
    f.clone.minParamValueCount = f.minParamValueCount ∧
    f.clone.maxParamValueCount = f.maxParamValueCount ∧
    f.clone.multiParam = f.multiParam ∧
    f.clone.attributes = f.attributes ∧
    f.clone.instructionBlockRef = f.instructionBlockRef ∧
    f.clone.staticDataRef = f.staticDataRef ∧
    readStaticVar (writeStaticVar h f.clone slot v) f slot = some v := by
  refine ⟨rfl, rfl, rfl, rfl, rfl, rfl, rfl, ?_⟩
  simp only [readStaticVar, writeStaticVar, UserFunction.clone]
  rw [getD_modify_self _ _ _ _ hblk]
  simp only [StaticData.setSlot]
  exact getD_set_self _ _ _ _ hslot

/-- Witness for C3 at a concrete function and one-block heap. -/
theorem userFunction_clone_spec_witness :
    readStaticVar
        (writeStaticVar (⟨[⟨["s"], [none]⟩]⟩ : SDHeap Nat)
          (UserFunction.clone ⟨"fn(a){}", 3, 1, 1, 1, -1, 0, 0, [("doc", 9)]⟩) 0 11)
        ⟨"fn(a){}", 3, 1, 1, 1, -1, 0, 0, [("doc", 9)]⟩ 0 = some 11 :=
  (userFunction_clone_spec (⟨"fn(a){}", 3, 1, 1, 1, -1, 0, 0, [("doc", 9)]⟩ : UserFunction Nat)
    (⟨[⟨["s"], [none]⟩]⟩ : SDHeap Nat) 0 11 (by decide) (by decide)).2.2.2.2.2.2.2

/-! ### C1 — arity check: too few fails, too many is silently truncated -/

/-- C1: for a Function with declared minimum `minParamValueCount`, maximum
`maxParamValueCount` and no variadic marker (`multiParam` negative), calling
with fewer arguments than the minimum fails with `ArityError`, and calling
with more arguments than the maximum succeeds, binding only the first
`maxParamValueCount` arguments and silently discarding the excess. -/
theorem bindParameters_arity_spec {V : Type} (f : UserFunction V) (args : List V)
    (hnovar : f.multiParam < 0) :
    ((args.length : Int) < f.minParamValueCount →
      bindParameters f args = .error .arityError) ∧
    (f.minParamValueCount ≤ f.maxParamValueCount →
      f.maxParamValueCount < (args.length : Int) →
      bindParameters f args = .ok ⟨args.take f.maxParamValueCount.toNat, none⟩) := by
  constructor
  · intro hlt
    simp [bindParameters, hlt]
  · intro hminmax hmax
    have hnl : ¬ ((args.length : Int) < f.minParamValueCount) := by omega
    have hnv : ¬ (0 ≤ f.multiParam) := by omega
    simp [bindParameters, hnl, hnv]

/-- Witness for C1, the exact scenario from the spec: min=1, max=2, no
variadic marker, called with 3 arguments — succeeds using only the first
two. -/
theorem bindParameters_arity_spec_witness :
    bindParameters (⟨"fn(a,b=0){}", 1, 2, 1, 2, -1, 0, 0, []⟩ : UserFunction Nat)
        [10, 20, 30] = .ok ⟨[10, 20], none⟩ ∧
    bindParameters (⟨"fn(a,b=0){}", 1, 2, 1, 2, -1, 0, 0, []⟩ : UserFunction Nat)
        [] = .error .arityError := by
  constructor
  · have h := (bindParameters_arity_spec
      (⟨"fn(a,b=0){}", 1, 2, 1, 2, -1, 0, 0, []⟩ : UserFunction Nat)
      [10, 20, 30] (by decide)).2 (by decide) (by decide)
    simpa using h
  · exact (bindParameters_arity_spec
      (⟨"fn(a,b=0){}", 1, 2, 1, 2, -1, 0, 0, []⟩ : UserFunction Nat)
      [] (by decide)).1 (by decide)

/-! ### C6 — an object's own attribute shadows type and trait attributes -/

/-- C6: for every extensible object and every attribute name present in the
object's own attribute map, attribute resolution yields the value from the
object's own map, whatever same-named attributes the type chain or its
composed trait bundles provide. -/
theorem ownAttr_shadows_type {V : Type} (obj : ExtObjModel V) (name : String) (v : V)
    (hown : lookupA obj.own name = some v) :
    resolveAttr obj name = some v := by
  simp [resolveAttr, hown, Option.orElse]

/-- Witness for C6: the object's own `doGet` (value 1) shadows both the
type-level `doGet` (value 2) and a trait-provided `doGet` (value 3), as in
`FnDataWrapper._constructor` of `DataWrapper.escript`. -/
theorem ownAttr_shadows_type_witness :
    resolveAttr (⟨[("doGet", 1)], [⟨[("doGet", 2)], [[("doGet", 3)]]⟩]⟩ : ExtObjModel Nat)
      "doGet" = some 1 :=
  ownAttr_shadows_type
    (⟨[("doGet", 1)], [⟨[("doGet", 2)], [[("doGet", 3)]]⟩]⟩ : ExtObjModel Nat)
    "doGet" 1 (by decide)

/-! ### PriorityQueue: `add` maintains the heap invariant -/

theorem siftUpLoop_perm {α : Type} [LinearOrder α] [Inhabited α] (e : α) :
    ∀ (i : Nat) (arr : List α), i < arr.length → arr.getD i default = e →
      (siftUpLoop e i arr).Perm arr := by
  intro i
  induction i using Nat.strong_induction_on with
  | _ i ih =>
    intro arr hi he
    rw [siftUpLoop]
    by_cases hpos : 0 < i
    · rw [dif_pos hpos]
      by_cases hcmp : e < arr.getD (parentIdx i) default
      · rw [if_pos hcmp]
        have hplt : parentIdx i < i := parentIdx_lt hpos
        have hswap : (((arr.set (parentIdx i) e).set i (arr.getD (parentIdx i) default))).Perm
            arr := by
          have := swap_pair_perm arr (parentIdx i) i hplt hi
          rwa [he] at this
        have hlen : ((arr.set (parentIdx i) e).set i
            (arr.getD (parentIdx i) default)).length = arr.length := by simp
        have hget : ((arr.set (parentIdx i) e).set i
            (arr.getD (parentIdx i) default)).getD (parentIdx i) default = e := by
          rw [getD_swap_pair _ _ _ _ _ _ (lt_trans hplt hi) hi]
          simp [Nat.ne_of_lt hplt]
        exact (ih (parentIdx i) hplt _ (by omega) hget).trans hswap
      · rw [if_neg hcmp]
    · rw [dif_neg hpos]

theorem siftUpLoop_isHeap {α : Type} [LinearOrder α] [Inhabited α] (e : α) :
    ∀ (i : Nat) (arr : List α), i < arr.length → arr.getD i default = e →
      (∀ j, 0 < j → j < arr.length → j ≠ i →
        arr.getD (parentIdx j) default ≤ arr.getD j default) →
      (0 < i → ∀ j, j < arr.length → parentIdx j = i →
        arr.getD (parentIdx i) default ≤ arr.getD j default) →
      isHeap (siftUpLoop e i arr) := by
  intro i
  induction i using Nat.strong_induction_on with
  | _ i ih =>
    intro arr hi he hExcept hGrand
    rw [siftUpLoop]
    by_cases hpos : 0 < i
    · rw [dif_pos hpos]
      by_cases hcmp : e < arr.getD (parentIdx i) default
      · rw [if_pos hcmp]
        have hplt : parentIdx i < i := parentIdx_lt hpos
        have hplen : parentIdx i < arr.length := lt_trans hplt hi
        have hchar : ∀ k, ((arr.set (parentIdx i) e).set i
            (arr.getD (parentIdx i) default)).getD k default =
            if k = i then arr.getD (parentIdx i) default
            else if k = parentIdx i then e else arr.getD k default :=
          fun k => getD_swap_pair arr (parentIdx i) i e _ default hplen hi k
        have hlen : ((arr.set (parentIdx i) e).set i
            (arr.getD (parentIdx i) default)).length = arr.length := by simp
        apply ih (parentIdx i) hplt
        · omega
        · rw [hchar]
          simp [Nat.ne_of_lt hplt]
        · -- all parent edges except those into the new position hold after the swap
          intro j hj0 hjlen hjp
          rw [hlen] at hjlen
          rw [hchar j, hchar (parentIdx j)]
          have hqj : parentIdx j ≠ j := Nat.ne_of_lt (parentIdx_lt hj0)
          by_cases hji : j = i
          · subst hji
            rw [if_neg hqj, if_pos rfl, if_pos rfl]
            exact le_of_lt hcmp
          · by_cases hq1 : parentIdx j = i
            · -- j is a child of the old position i: the old parent value moved there
              rw [if_pos hq1, if_neg hji, if_neg hjp]
              exact hGrand hpos j hjlen hq1
            · by_cases hq2 : parentIdx j = parentIdx i
              · -- j is the sibling of i (or another child of the parent slot)
                rw [if_neg hji, if_neg hjp, if_neg hq1, if_pos hq2]
                have hj_old : arr.getD (parentIdx j) default ≤ arr.getD j default :=
                  hExcept j hj0 hjlen hji
                rw [hq2] at hj_old
                exact le_trans (le_of_lt hcmp) hj_old
              · rw [if_neg hji, if_neg hjp, if_neg hq1, if_neg hq2]
                exact hExcept j hj0 hjlen hji
        · -- the grandparent condition at the new position
          intro hppos j hjlen hpj
          rw [hlen] at hjlen
          have hpplt : parentIdx (parentIdx i) < parentIdx i := parentIdx_lt hppos
          rw [hchar j, hchar (parentIdx (parentIdx i))]
          rw [if_neg (Nat.ne_of_lt (lt_trans hpplt hplt)), if_neg (Nat.ne_of_lt hpplt)]
          have hj0 : 0 < j := by
            rcases Nat.eq_zero_or_pos j with h0 | h0
            · exfalso
              subst h0
              unfold parentIdx at hpj hppos
              omega
            · exact h0
          have hjgti : parentIdx i < j := by
            have := parentIdx_lt hj0
            omega
          have hjnei' : j ≠ parentIdx i := by omega
          by_cases hji : j = i
          · rw [if_pos hji]
            exact hExcept (parentIdx i) hppos (lt_trans (parentIdx_lt hpos) hi)
              (Nat.ne_of_lt (parentIdx_lt hpos))
          · rw [if_neg hji, if_neg hjnei']
            have h1 : arr.getD (parentIdx (parentIdx i)) default
                ≤ arr.getD (parentIdx i) default :=
              hExcept (parentIdx i) hppos (lt_trans (parentIdx_lt hpos) hi)
                (Nat.ne_of_lt (parentIdx_lt hpos))
            have h2 : arr.getD (parentIdx j) default ≤ arr.getD j default :=
              hExcept j hj0 hjlen hji
            rw [hpj] at h2
            exact le_trans h1 h2
      · -- comparison failed: the loop stops and the array is already a heap
        rw [if_neg hcmp]
        intro j hj0 hjlen
        by_cases hji : j = i
        · subst hji
          rw [he]
          exact le_of_not_lt hcmp
        · exact hExcept j hj0 hjlen hji
    · -- i = 0: the loop does not run; no edge is excepted
      rw [dif_neg hpos]
      intro j hj0 hjlen
      exact hExcept j hj0 hjlen (by omega)

theorem addPQ_isHeap {α : Type} [LinearOrder α] [Inhabited α] (q : PriorityQueueM α)
    (e : α) (hq : isHeap q.arr) : isHeap (addPQ q e).arr := by
  unfold addPQ
  show isHeap (siftUpLoop e ((q.arr ++ [e]).length - 1) (q.arr ++ [e]))
  rw [show (q.arr ++ [e]).length - 1 = q.arr.length by simp]
  have hlen : (q.arr ++ [e]).length = q.arr.length + 1 := by simp
  apply siftUpLoop_isHeap e (q.arr.length)
  · omega
  · exact getD_concat_last q.arr e default
  · intro j hj0 hjlen hji
    have hjlt : j < q.arr.length := by omega
    have hplt : parentIdx j < q.arr.length := lt_trans (parentIdx_lt hj0) hjlt
    rw [getD_append_left _ _ _ _ hjlt, getD_append_left _ _ _ _ hplt]
    exact hq j hj0 hjlt
  · intro hpos j hjlen hpj
    unfold parentIdx at hpj
    omega

theorem addPQ_perm {α : Type} [LinearOrder α] [Inhabited α] (q : PriorityQueueM α)
    (e : α) : (addPQ q e).arr.Perm (q.arr ++ [e]) := by
  unfold addPQ
  show (siftUpLoop e ((q.arr ++ [e]).length - 1) (q.arr ++ [e])).Perm (q.arr ++ [e])
  rw [show (q.arr ++ [e]).length - 1 = q.arr.length by simp]
  apply siftUpLoop_perm
  · simp
  · exact getD_concat_last q.arr e default

/-! ### PriorityQueue: `heapify` restores the heap invariant -/

theorem getD_dropLast {α : Type} (l : List α) (k : Nat) (d : α) (h : k < l.length - 1) :
    l.dropLast.getD k d = l.getD k d := by
  rw [List.dropLast_eq_take, List.getD_eq_getElem?_getD, List.getD_eq_getElem?_getD,
    List.getElem?_take, if_pos h]

/-- Facts about the `minI` selected by `heapify`: it is `i` or a strictly
larger in-range child index, and it carries the smallest of the (at most
three) compared values; when it differs from `i` the comparison was strict. -/
theorem heapifyMinI_spec {α : Type} [LinearOrder α] [Inhabited α] (arr : List α) (i : Nat)
    (hl : (i + 1) * 2 - 1 < arr.length) :
    (heapifyMinI arr i = i ∨
      (i < heapifyMinI arr i ∧ heapifyMinI arr i < arr.length)) ∧
    arr.getD (heapifyMinI arr i) default ≤ arr.getD i default ∧
    arr.getD (heapifyMinI arr i) default ≤ arr.getD ((i + 1) * 2 - 1) default ∧
    ((i + 1) * 2 < arr.length →
      arr.getD (heapifyMinI arr i) default ≤ arr.getD ((i + 1) * 2) default) ∧
    (heapifyMinI arr i ≠ i →
      arr.getD (heapifyMinI arr i) default < arr.getD i default) := by
  unfold heapifyMinI
  split_ifs with h1 h2 h3 h4 h5
  · -- right in range, left beats i, right beats left
    refine ⟨Or.inr ⟨by omega, h1⟩, le_of_lt (lt_trans h3 h2), le_of_lt h3,
      fun _ => le_refl _, fun _ => lt_trans h3 h2⟩
  · -- right in range, left beats i, right does not beat left
    refine ⟨Or.inr ⟨by omega, by omega⟩, le_of_lt h2, le_refl _,
      fun _ => le_of_not_lt h3, fun _ => h2⟩
  · -- right in range, left does not beat i, right beats i
    refine ⟨Or.inr ⟨by omega, h1⟩, le_of_lt h4, le_trans (le_of_lt h4) (le_of_not_lt h2),
      fun _ => le_refl _, fun _ => h4⟩
  · -- right in range, nobody beats i
    exact ⟨Or.inl rfl, le_refl _, le_of_not_lt h2, fun _ => le_of_not_lt h4,
      fun h => absurd rfl h⟩
  · -- right out of range, left beats i
    refine ⟨Or.inr ⟨by omega, hl⟩, le_of_lt h5, le_refl _,
      fun hr => absurd hr h1, fun _ => h5⟩
  · -- right out of range, left does not beat i
    exact ⟨Or.inl rfl, le_refl _, le_of_not_lt h5, fun hr => absurd hr h1,
      fun h => absurd rfl h⟩

theorem heapifyLoop_length {α : Type} [LinearOrder α] [Inhabited α] (arr : List α)
    (i : Nat) : (heapifyLoop arr i).length = arr.length := by
  induction arr, i using heapifyLoop.induct with
  | case1 arr i hl hne ih =>
    rw [heapifyLoop, dif_pos hl, dif_pos hne]
    simpa using ih
  | case2 arr i hl hne =>
    rw [heapifyLoop, dif_pos hl, dif_neg hne]
  | case3 arr i hl =>
    rw [heapifyLoop, dif_neg hl]

theorem heapifyLoop_perm {α : Type} [LinearOrder α] [Inhabited α] (arr : List α)
    (i : Nat) : (heapifyLoop arr i).Perm arr := by
  induction arr, i using heapifyLoop.induct with
  | case1 arr i hl hne ih =>
    rw [heapifyLoop, dif_pos hl, dif_pos hne]
    have hspec := heapifyMinI_spec arr i hl
    have hrange : i < heapifyMinI arr i ∧ heapifyMinI arr i < arr.length := by
      rcases hspec.1 with h | h
      · exact absurd h hne
      · exact h
    exact ih.trans (swap_pair_perm arr i (heapifyMinI arr i) hrange.1 hrange.2)
  | case2 arr i hl hne =>
    rw [heapifyLoop, dif_pos hl, dif_neg hne]
  | case3 arr i hl =>
    rw [heapifyLoop, dif_neg hl]

theorem heapifyLoop_isHeap {α : Type} [LinearOrder α] [Inhabited α] (arr : List α)
    (i : Nat) :
    (∀ j, 0 < j → j < arr.length → parentIdx j ≠ i →
      arr.getD (parentIdx j) default ≤ arr.getD j default) →
    (0 < i → ∀ j, j < arr.length → parentIdx j = i →
      arr.getD (parentIdx i) default ≤ arr.getD j default) →
    isHeap (heapifyLoop arr i) := by
  induction arr, i using heapifyLoop.induct with
  | case1 arr i hl hne ih =>
    intro hExcept hGrand
    rw [heapifyLoop, dif_pos hl, dif_pos hne]
    have hspec := heapifyMinI_spec arr i hl
    have hrange : i < heapifyMinI arr i ∧ heapifyMinI arr i < arr.length := by
      rcases hspec.1 with h | h
      · exact absurd h hne
      · exact h
    have hilen : i < arr.length := lt_trans hrange.1 hrange.2
    have hpm : parentIdx (heapifyMinI arr i) = i := by
      rcases hspec.1 with h | h
      · exact absurd h hne
      · -- the selected index is one of the two children of i
        unfold heapifyMinI at h ⊢
        split_ifs at h ⊢ <;> unfold parentIdx <;> omega
    have hchar : ∀ k, ((arr.set i (arr.getD (heapifyMinI arr i) default)).set
        (heapifyMinI arr i) (arr.getD i default)).getD k default =
        if k = heapifyMinI arr i then arr.getD i default
        else if k = i then arr.getD (heapifyMinI arr i) default
        else arr.getD k default :=
      fun k => getD_swap_pair arr i (heapifyMinI arr i) _ _ default hilen hrange.2 k
    have hlen : ((arr.set i (arr.getD (heapifyMinI arr i) default)).set
        (heapifyMinI arr i) (arr.getD i default)).length = arr.length := by simp
    apply ih
    · -- all parent edges except those into the new position hold after the swap
      intro j hj0 hjlen hjpm
      rw [hlen] at hjlen
      rw [hchar j, hchar (parentIdx j)]
      by_cases hjm : j = heapifyMinI arr i
      · -- the swapped-down element sits above the old minimum child
        rw [if_pos hjm, hjm, hpm]
        rw [if_neg (Nat.ne_of_lt hrange.1), if_pos rfl]
        exact hspec.2.1
      · by_cases hji : j = i
        · -- the old parent position: its parent is above the element moved up
          rw [if_neg hjm, if_pos hji]
          have hq : parentIdx j < j := parentIdx_lt hj0
          rw [if_neg (by omega : parentIdx j ≠ heapifyMinI arr i),
            if_neg (by omega : parentIdx j ≠ i)]
          rw [hji]
          exact hGrand (by omega) (heapifyMinI arr i) hrange.2 hpm
        · rw [if_neg hjm, if_neg hji]
          by_cases hqi : parentIdx j = i
          · -- j is the other child of i: the minimum moved up, still below j
            rw [if_neg (by omega : parentIdx j ≠ heapifyMinI arr i), if_pos hqi]
            have hj12 : j = 2 * i + 1 ∨ j = 2 * i + 2 :=
              (parentIdx_child_iff hj0).mp hqi
            rcases hj12 with hj1 | hj2
            · have : j = (i + 1) * 2 - 1 := by omega
              rw [this]
              exact hspec.2.2.1
            · have hrlen : (i + 1) * 2 < arr.length := by omega
              have : j = (i + 1) * 2 := by omega
              rw [this]
              exact hspec.2.2.2.1 hrlen
          · rw [if_neg hjpm, if_neg hqi]
            exact hExcept j hj0 hjlen hqi
    · -- the grandparent condition at the new position
      intro hmpos j hjlen hpj
      rw [hlen] at hjlen
      rw [hpm, hchar j, hchar i]
      have hjgt : heapifyMinI arr i < j := by
        have := parentIdx_lt (show 0 < j by
          rcases Nat.eq_zero_or_pos j with h0 | h0
          · exfalso
            subst h0
            unfold parentIdx at hpj
            omega
          · exact h0)
        omega
      rw [if_neg (Nat.ne_of_lt hrange.1), if_pos rfl,
        if_neg (by omega : j ≠ heapifyMinI arr i), if_neg (by omega : j ≠ i)]
      have h := hExcept j (by omega) hjlen (by rw [hpj]; exact hne)
      rw [hpj] at h
      exact h
  | case2 arr i hl hne =>
    intro hExcept hGrand
    rw [heapifyLoop, dif_pos hl, dif_neg hne]
    have hm : heapifyMinI arr i = i := by omega
    have hspec := heapifyMinI_spec arr i hl
    rw [hm] at hspec
    intro j hj0 hjlen
    by_cases hqi : parentIdx j = i
    · have hj12 : j = 2 * i + 1 ∨ j = 2 * i + 2 := (parentIdx_child_iff hj0).mp hqi
      rw [hqi]
      rcases hj12 with hj1 | hj2
      · rw [show j = (i + 1) * 2 - 1 by omega]
        exact hspec.2.2.1
      · rw [show j = (i + 1) * 2 by omega]
        exact hspec.2.2.2.1 (by omega)
    · exact hExcept j hj0 hjlen hqi
  | case3 arr i hl =>
    intro hExcept hGrand
    rw [heapifyLoop, dif_neg hl]
    intro j hj0 hjlen
    by_cases hqi : parentIdx j = i
    · exfalso
      have hj12 : j = 2 * i + 1 ∨ j = 2 * i + 2 := (parentIdx_child_iff hj0).mp hqi
      omega
    · exact hExcept j hj0 hjlen hqi

/-! ### PriorityQueue: `extract` returns the minimum -/

theorem isHeap_root_min {α : Type} [LinearOrder α] [Inhabited α] (l : List α)
    (hl : isHeap l) : ∀ j, j < l.length → l.getD 0 default ≤ l.getD j default := by
  intro j
  induction j using Nat.strong_induction_on with
  | _ j ih =>
    intro hj
    rcases Nat.eq_zero_or_pos j with h0 | h0
    · subst h0
      exact le_refl _
    · have hp := parentIdx_lt h0
      exact le_trans (ih (parentIdx j) hp (lt_trans hp hj)) (hl j h0 hj)

/-- The root together with the popBack-into-root array permutes the original
array (the shape produced by `extract` on `size>1`). -/
theorem root_last_perm {α : Type} [Inhabited α] (l : List α) (h2 : 2 ≤ l.length) :
    (l.getD 0 default :: l.dropLast.set 0 (l.getD (l.length - 1) default)).Perm l := by
  rcases l with _ | ⟨x, xs⟩
  · simp at h2
  · rcases xs with _ | ⟨y, ys⟩
    · simp at h2
    · show ((x :: y :: ys).getD 0 default ::
        (x :: (y :: ys).dropLast).set 0
          ((x :: y :: ys).getD ((x :: y :: ys).length - 1) default)).Perm
        (x :: y :: ys)
      have hstep : ((x :: y :: ys).getD ((x :: y :: ys).length - 1) default ::
          (y :: ys).dropLast).Perm (y :: ys) := by
        have hne2 : (y :: ys) ≠ [] := by simp
        have hg : (x :: y :: ys).getD ((x :: y :: ys).length - 1) default
            = (y :: ys).getD ((y :: ys).length - 1) default := by
          simp [List.getD_cons_succ]
        rw [hg]
        exact last_cons_dropLast_perm (y :: ys) hne2
      simpa using hstep.cons x

theorem extractPQ_spec {α : Type} [LinearOrder α] [Inhabited α] (q : PriorityQueueM α)
    (hq : isHeap q.arr) (hne : q.arr.length ≠ 0) :
    ∃ q', extractPQ q = (some (q.arr.getD 0 default), q') ∧
      isHeap q'.arr ∧ q'.arr.length = q.arr.length - 1 ∧
      (q.arr.getD 0 default :: q'.arr).Perm q.arr ∧
      (∀ y ∈ q'.arr, q.arr.getD 0 default ≤ y) := by
  by_cases h1 : q.arr.length > 1
  · refine ⟨⟨heapifyLoop (q.arr.dropLast.set 0 (q.arr.getD (q.arr.length - 1) default)) 0⟩,
      by rw [extractPQ, if_pos h1], ?_, ?_, ?_, ?_⟩
    · -- the shrunk array is a heap again
      apply heapifyLoop_isHeap
      · intro j hj0 hjlen hjp
        have hlen2 : (q.arr.dropLast.set 0
            (q.arr.getD (q.arr.length - 1) default)).length = q.arr.length - 1 := by
          simp
        rw [hlen2] at hjlen
        have hq0 : 0 < parentIdx j := Nat.pos_of_ne_zero hjp
        have hplt : parentIdx j < j := parentIdx_lt hj0
        rw [getD_set_ne _ _ _ _ _ (by omega), getD_set_ne _ _ _ _ _ (by omega),
          getD_dropLast _ _ _ hjlen, getD_dropLast _ _ _ (by omega)]
        exact hq j hj0 (by omega)
      · intro h0
        omega
    · simp [heapifyLoop_length]
    · -- extracted root plus remainder permutes the original array
      have hperm1 : (heapifyLoop (q.arr.dropLast.set 0
          (q.arr.getD (q.arr.length - 1) default)) 0).Perm
          (q.arr.dropLast.set 0 (q.arr.getD (q.arr.length - 1) default)) :=
        heapifyLoop_perm _ _
      have hdlen : 0 < q.arr.dropLast.length := by
        rw [List.length_dropLast]
        omega
      exact (hperm1.cons _).trans (root_last_perm q.arr (by omega))
    · -- the extracted root is a lower bound for everything left
      intro y hy
      have hperm1 : (heapifyLoop (q.arr.dropLast.set 0
          (q.arr.getD (q.arr.length - 1) default)) 0).Perm
          (q.arr.dropLast.set 0 (q.arr.getD (q.arr.length - 1) default)) :=
        heapifyLoop_perm _ _
      have hperm2 : (q.arr.getD 0 default :: q.arr.dropLast.set 0
          (q.arr.getD (q.arr.length - 1) default)).Perm q.arr :=
        root_last_perm q.arr (by omega)
      have hy2 : y ∈ q.arr := by
        have : y ∈ (q.arr.getD 0 default :: q.arr.dropLast.set 0
            (q.arr.getD (q.arr.length - 1) default)) :=
          List.Mem.tail _ (hperm1.mem_iff.mp hy)
        exact hperm2.mem_iff.mp this
      obtain ⟨k, hk, hky⟩ := List.getElem_of_mem hy2
      have : q.arr.getD k default = y := by
        rw [List.getD_eq_getElem?_getD, List.getElem?_eq_getElem hk]
        simpa using hky
      rw [← this]
      exact isHeap_root_min q.arr hq k hk
  · -- exactly one element
    have hlen1 : q.arr.length = 1 := by omega
    refine ⟨⟨q.arr.dropLast⟩, by rw [extractPQ, if_neg h1, if_pos hlen1], ?_, ?_, ?_, ?_⟩
    · intro j hj0 hjlen
      rw [List.length_dropLast] at hjlen
      omega
    · simp
    · obtain ⟨x, hx⟩ := List.length_eq_one.mp hlen1
      rw [hx]
      simpa using List.Perm.refl [x]
    · intro y hy
      rw [List.dropLast_eq_take, hlen1] at hy
      simp at hy

/-! ### PriorityQueue: draining the queue yields a sorted permutation -/

theorem extractAllFuel_spec {α : Type} [LinearOrder α] [Inhabited α] :
    ∀ (n : Nat) (q : PriorityQueueM α), q.arr.length = n → isHeap q.arr →
      (extractAllFuel n q).Sorted (· ≤ ·) ∧ (extractAllFuel n q).Perm q.arr := by
  intro n
  induction n with
  | zero =>
    intro q hlen hq
    have : q.arr = [] := List.length_eq_zero.mp hlen
    simp [extractAllFuel, this]
  | succ n ih =>
    intro q hlen hq
    obtain ⟨q', hext, hheap, hlen', hperm, hmin⟩ :=
      extractPQ_spec q hq (by omega)
    have hq'len : q'.arr.length = n := by omega
    obtain ⟨hsorted, hperm'⟩ := ih q' hq'len hheap
    rw [show extractAllFuel (n + 1) q = q.arr.getD 0 default :: extractAllFuel n q' by
      rw [extractAllFuel, hext]]
    constructor
    · rw [List.sorted_cons]
      refine ⟨?_, hsorted⟩
      intro b hb
      exact hmin b (hperm'.mem_iff.mp hb)
    · exact (hperm'.cons _).trans hperm

theorem buildPQ_foldl_spec {α : Type} [LinearOrder α] [Inhabited α] :
    ∀ (xs : List α) (q : PriorityQueueM α), isHeap q.arr →
      isHeap (xs.foldl addPQ q).arr ∧ (xs.foldl addPQ q).arr.Perm (q.arr ++ xs) := by
  intro xs
  induction xs with
  | nil =>
    intro q hq
    simpa using hq
  | cons x xs ih =>
    intro q hq
    obtain ⟨hheap, hperm⟩ := ih (addPQ q x) (addPQ_isHeap q x hq)
    refine ⟨by simpa using hheap, ?_⟩
    have h1 : (addPQ q x).arr.Perm (q.arr ++ [x]) := addPQ_perm q x
    have h2 : ((addPQ q x).arr ++ xs).Perm ((q.arr ++ [x]) ++ xs) := h1.append_right xs
    have h3 : (q.arr ++ [x]) ++ xs = q.arr ++ (x :: xs) := by simp
    rw [h3] at h2
    simpa using hperm.trans h2

/-! ### C4 — inserting N values then draining yields them in order -/

/-- C4: for every sequence of values inserted into a `PriorityQueue` with the
default less-than comparison, repeatedly extracting until the queue is empty
yields exactly those values (a permutation of the input, in particular the
same count) in non-decreasing order. -/
theorem priorityQueue_drain_sorted {α : Type} [LinearOrder α] [Inhabited α]
    (xs : List α) :
    (extractAllPQ (buildPQ xs)).Sorted (· ≤ ·) ∧
    (extractAllPQ (buildPQ xs)).Perm xs ∧
    (extractAllPQ (buildPQ xs)).length = xs.length := by
  obtain ⟨hheap, hperm⟩ := buildPQ_foldl_spec xs emptyPQ (by
    intro j hj0 hjlen
    simp [emptyPQ] at hjlen)
  have hperm2 : (buildPQ xs).arr.Perm xs := by simpa [emptyPQ] using hperm
  obtain ⟨hsorted, hperm3⟩ :=
    extractAllFuel_spec (countPQ (buildPQ xs)) (buildPQ xs) rfl hheap
  have hperm4 : (extractAllPQ (buildPQ xs)).Perm xs := hperm3.trans hperm2
  exact ⟨hsorted, hperm4, hperm4.length_eq⟩

/-- Witness for C4 at a concrete input: inserting 5, 1, 4, 1, 3 and draining
gives 1, 1, 3, 4, 5. -/
theorem priorityQueue_drain_sorted_witness :
    (extractAllPQ (buildPQ [5, 1, 4, 1, 3])).Sorted (· ≤ ·) ∧
    (extractAllPQ (buildPQ ([5, 1, 4, 1, 3] : List Nat))).Perm [5, 1, 4, 1, 3] :=
  ⟨(priorityQueue_drain_sorted [5, 1, 4, 1, 3]).1,
    (priorityQueue_drain_sorted ([5, 1, 4, 1, 3] : List Nat)).2.1⟩

/-! ### C10 — extract and get on empty and singleton queues -/

/-- C10: `extract()` on an empty queue returns void and leaves the queue
unchanged (its count stays 0); on a one-element queue it returns that element
and leaves the queue empty; `get()` returns void on an empty queue (and, being
a pure read of `arr[0]`, modifies nothing). -/
theorem extractPQ_empty_singleton {α : Type} [LinearOrder α] [Inhabited α] (x : α) :
    extractPQ (emptyPQ : PriorityQueueM α) = (none, emptyPQ) ∧
    countPQ (extractPQ (emptyPQ : PriorityQueueM α)).2 = 0 ∧
    extractPQ (⟨[x]⟩ : PriorityQueueM α) = (some x, ⟨[]⟩) ∧
    getPQ (emptyPQ : PriorityQueueM α) = none := by
  refine ⟨?_, ?_, ?_, ?_⟩
  · rw [extractPQ]
    simp [emptyPQ]
  · rw [extractPQ]
    simp [emptyPQ, countPQ]
  · rw [extractPQ]
    simp
  · rw [getPQ]
    simp [emptyPQ]

/-- Witness for C10 at a concrete element type and value. -/
theorem extractPQ_empty_singleton_witness :
    extractPQ (emptyPQ : PriorityQueueM Nat) = (none, emptyPQ) ∧
    extractPQ (⟨[7]⟩ : PriorityQueueM Nat) = (some 7, ⟨[]⟩) :=
  ⟨(extractPQ_empty_singleton (7 : Nat)).1, (extractPQ_empty_singleton (7 : Nat)).2.2.1⟩

/-! ### C9 — the UTF-8 code-point reader of the test driver -/

theorem and192_eq_128_iff (c : Nat) (hc : c < 256) :
    c &&& 0xC0 = 0x80 ↔ 0x80 ≤ c ∧ c ≤ 0xBF := by
  interval_cases c <;> decide

/-- The decoder equals a case split on the declarative acceptance predicate,
returning the arithmetically decoded payload on success. -/
theorem readCodePoint_utf8_eq_accepted (buf : List Nat) (cursor utf8End : Nat) :
    readCodePoint_utf8 buf cursor utf8End =
      match utf8AcceptedLen buf cursor utf8End with
      | none => (INVALID_CODE_POINT, cursor)
      | some len => (utf8SpecValue buf cursor len, cursor + len) := by
  unfold readCodePoint_utf8 utf8AcceptedLen
  by_cases h0 : cursor ≥ utf8End
  · rw [if_pos h0, if_neg (show ¬cursor < utf8End by omega)]
  · rw [if_neg h0, if_pos (show cursor < utf8End by omega)]
    set b0 := buf.getD cursor 0 % 256 with hb0def
    set b1 := buf.getD (cursor + 1) 0 % 256 with hb1def
    set b2 := buf.getD (cursor + 2) 0 % 256 with hb2def
    set b3 := buf.getD (cursor + 3) 0 % 256 with hb3def
    have hb0lt : b0 < 256 := by omega
    have hb1lt : b1 < 256 := by omega
    have hb2lt : b2 < 256 := by omega
    have hb3lt : b3 < 256 := by omega
    by_cases h1 : b0 < 0x80
    · rw [if_pos h1, if_pos h1]
      show _ = (utf8SpecValue buf cursor 1, cursor + 1)
      simp [utf8SpecValue, hb0def]
    · rw [if_neg h1, if_neg h1]
      by_cases h2 : b0 < 0xE0
      · rw [if_pos h2]
        by_cases h3 : b0 < 0xC2 ∨ cursor + 1 ≥ utf8End
        · rw [if_pos h3,
            if_neg (show ¬(0xC2 ≤ b0 ∧ b0 < 0xE0 ∧ cursor + 1 < utf8End ∧
                b1 &&& 0xC0 = 0x80) by
              rintro ⟨hA, hB, hC, hD⟩
              rcases h3 with h | h <;> omega),
            if_neg (show ¬(0xE0 ≤ b0 ∧ b0 < 0xF0 ∧ cursor + 2 < utf8End ∧
                b1 &&& 0xC0 = 0x80 ∧ b2 &&& 0xC0 = 0x80) by
              rintro ⟨hA, _⟩
              omega),
            if_neg (show ¬(0xF0 ≤ b0 ∧ b0 < 0xF5 ∧ cursor + 3 < utf8End ∧
                b1 &&& 0xC0 = 0x80 ∧ b2 &&& 0xC0 = 0x80 ∧ b3 &&& 0xC0 = 0x80) by
              rintro ⟨hA, _⟩
              omega)]
        · rw [if_neg h3]
          push_neg at h3
          by_cases h4 : b1 &&& 0xC0 ≠ 0x80
          · rw [if_pos h4,
              if_neg (show ¬(0xC2 ≤ b0 ∧ b0 < 0xE0 ∧ cursor + 1 < utf8End ∧
                  b1 &&& 0xC0 = 0x80) by
                rintro ⟨hA, hB, hC, hD⟩
                exact h4 hD),
              if_neg (show ¬(0xE0 ≤ b0 ∧ b0 < 0xF0 ∧ cursor + 2 < utf8End ∧
                  b1 &&& 0xC0 = 0x80 ∧ b2 &&& 0xC0 = 0x80) by
                rintro ⟨hA, _⟩
                omega),
              if_neg (show ¬(0xF0 ≤ b0 ∧ b0 < 0xF5 ∧ cursor + 3 < utf8End ∧
                  b1 &&& 0xC0 = 0x80 ∧ b2 &&& 0xC0 = 0x80 ∧ b3 &&& 0xC0 = 0x80) by
                rintro ⟨hA, _⟩
                omega)]
          · rw [if_neg h4]
            have hD : b1 &&& 0xC0 = 0x80 := not_not.mp h4
            have hcont1 := (and192_eq_128_iff _ hb1lt).mp hD
            rw [if_pos (⟨by omega, by omega, by omega, hD⟩ :
              0xC2 ≤ b0 ∧ b0 < 0xE0 ∧ cursor + 1 < utf8End ∧ b1 &&& 0xC0 = 0x80)]
            show _ = (utf8SpecValue buf cursor 2, cursor + 2)
            have e1 : b0 &&& 31 = b0 % 32 := Nat.and_pow_two_sub_one_eq_mod b0 5
            have e2 : b1 &&& 63 = b1 % 64 := Nat.and_pow_two_sub_one_eq_mod b1 6
            have hval : ((b0 &&& 0x1F) <<< 6) + (b1 &&& 0x3F)
                = utf8SpecValue buf cursor 2 := by
              simp only [utf8SpecValue, ← hb0def, ← hb1def]
              rw [Nat.shiftLeft_eq, show (2:Nat) ^ 6 = 64 from rfl]
              omega
            rw [hval]
      · rw [if_neg h2,
          if_neg (show ¬(0xC2 ≤ b0 ∧ b0 < 0xE0 ∧ cursor + 1 < utf8End ∧
              b1 &&& 0xC0 = 0x80) by
            rintro ⟨hA, hB, _⟩
            omega)]
        by_cases h5 : b0 < 0xF0
        · rw [if_pos h5]
          by_cases h6 : cursor + 2 ≥ utf8End
          · rw [if_pos h6,
              if_neg (show ¬(0xE0 ≤ b0 ∧ b0 < 0xF0 ∧ cursor + 2 < utf8End ∧
                  b1 &&& 0xC0 = 0x80 ∧ b2 &&& 0xC0 = 0x80) by
                rintro ⟨hA, hB, hC, _⟩
                omega),
              if_neg (show ¬(0xF0 ≤ b0 ∧ b0 < 0xF5 ∧ cursor + 3 < utf8End ∧
                  b1 &&& 0xC0 = 0x80 ∧ b2 &&& 0xC0 = 0x80 ∧ b3 &&& 0xC0 = 0x80) by
                rintro ⟨hA, _⟩
                omega)]
          · rw [if_neg h6]
            by_cases h7 : b1 &&& 0xC0 ≠ 0x80 ∨ b2 &&& 0xC0 ≠ 0x80
            · rw [if_pos h7,
                if_neg (show ¬(0xE0 ≤ b0 ∧ b0 < 0xF0 ∧ cursor + 2 < utf8End ∧
                    b1 &&& 0xC0 = 0x80 ∧ b2 &&& 0xC0 = 0x80) by
                  rintro ⟨hA, hB, hC, hD, hE⟩
                  rcases h7 with h | h
                  · exact h hD
                  · exact h hE),
                if_neg (show ¬(0xF0 ≤ b0 ∧ b0 < 0xF5 ∧ cursor + 3 < utf8End ∧
                    b1 &&& 0xC0 = 0x80 ∧ b2 &&& 0xC0 = 0x80 ∧ b3 &&& 0xC0 = 0x80) by
                  rintro ⟨hA, _⟩
                  omega)]
            · rw [if_neg h7]
              push_neg at h7
              have hcont1 := (and192_eq_128_iff _ hb1lt).mp h7.1
              have hcont2 := (and192_eq_128_iff _ hb2lt).mp h7.2
              rw [if_pos (⟨by omega, by omega, by omega, h7.1, h7.2⟩ :
                0xE0 ≤ b0 ∧ b0 < 0xF0 ∧ cursor + 2 < utf8End ∧
                b1 &&& 0xC0 = 0x80 ∧ b2 &&& 0xC0 = 0x80)]
              show _ = (utf8SpecValue buf cursor 3, cursor + 3)
              have e1 : b0 &&& 15 = b0 % 16 := Nat.and_pow_two_sub_one_eq_mod b0 4
              have e2 : b1 &&& 63 = b1 % 64 := Nat.and_pow_two_sub_one_eq_mod b1 6
              have e3 : b2 &&& 63 = b2 % 64 := Nat.and_pow_two_sub_one_eq_mod b2 6
              have hval : ((b0 &&& 0x0F) <<< 12) + ((b1 &&& 0x3F) <<< 6) + (b2 &&& 0x3F)
                  = utf8SpecValue buf cursor 3 := by
                simp only [utf8SpecValue, ← hb0def, ← hb1def, ← hb2def]
                rw [Nat.shiftLeft_eq, Nat.shiftLeft_eq, show (2:Nat) ^ 12 = 4096 from rfl,
                  show (2:Nat) ^ 6 = 64 from rfl]
                omega
              rw [hval]
        · rw [if_neg h5,
            if_neg (show ¬(0xE0 ≤ b0 ∧ b0 < 0xF0 ∧ cursor + 2 < utf8End ∧
                b1 &&& 0xC0 = 0x80 ∧ b2 &&& 0xC0 = 0x80) by
              rintro ⟨hA, hB, _⟩
              omega)]
          by_cases h8 : b0 < 0xF5
          · rw [if_pos h8]
            by_cases h9 : cursor + 3 ≥ utf8End
            · rw [if_pos h9,
                if_neg (show ¬(0xF0 ≤ b0 ∧ b0 < 0xF5 ∧ cursor + 3 < utf8End ∧
                    b1 &&& 0xC0 = 0x80 ∧ b2 &&& 0xC0 = 0x80 ∧ b3 &&& 0xC0 = 0x80) by
                  rintro ⟨hA, hB, hC, _⟩
                  omega)]
            · rw [if_neg h9]
              by_cases h10 : b1 &&& 0xC0 ≠ 0x80 ∨ b2 &&& 0xC0 ≠ 0x80 ∨ b3 &&& 0xC0 ≠ 0x80
              · rw [if_pos h10,
                  if_neg (show ¬(0xF0 ≤ b0 ∧ b0 < 0xF5 ∧ cursor + 3 < utf8End ∧
                      b1 &&& 0xC0 = 0x80 ∧ b2 &&& 0xC0 = 0x80 ∧ b3 &&& 0xC0 = 0x80) by
                    rintro ⟨hA, hB, hC, hD, hE, hF⟩
                    rcases h10 with h | h | h
                    · exact h hD
                    · exact h hE
                    · exact h hF)]
              · rw [if_neg h10]
                push_neg at h10
                have hcont1 := (and192_eq_128_iff _ hb1lt).mp h10.1
                have hcont2 := (and192_eq_128_iff _ hb2lt).mp h10.2.1
                have hcont3 := (and192_eq_128_iff _ hb3lt).mp h10.2.2
                rw [if_pos (⟨by omega, by omega, by omega, h10.1, h10.2.1, h10.2.2⟩ :
                  0xF0 ≤ b0 ∧ b0 < 0xF5 ∧ cursor + 3 < utf8End ∧
                  b1 &&& 0xC0 = 0x80 ∧ b2 &&& 0xC0 = 0x80 ∧ b3 &&& 0xC0 = 0x80)]
                show _ = (utf8SpecValue buf cursor 4, cursor + 4)
                have e1 : b0 &&& 7 = b0 % 8 := Nat.and_pow_two_sub_one_eq_mod b0 3
                have e2 : b1 &&& 63 = b1 % 64 := Nat.and_pow_two_sub_one_eq_mod b1 6
                have e3 : b2 &&& 63 = b2 % 64 := Nat.and_pow_two_sub_one_eq_mod b2 6
                have e4 : b3 &&& 63 = b3 % 64 := Nat.and_pow_two_sub_one_eq_mod b3 6
                have hval : ((b0 &&& 0x07) <<< 18) + ((b1 &&& 0x3F) <<< 12) +
                    ((b2 &&& 0x3F) <<< 6) + (b3 &&& 0x3F)
                    = utf8SpecValue buf cursor 4 := by
                  simp only [utf8SpecValue, ← hb0def, ← hb1def, ← hb2def, ← hb3def]
                  rw [Nat.shiftLeft_eq, Nat.shiftLeft_eq, Nat.shiftLeft_eq,
                    show (2:Nat) ^ 18 = 262144 from rfl, show (2:Nat) ^ 12 = 4096 from rfl,
                    show (2:Nat) ^ 6 = 64 from rfl]
                  omega
                rw [hval]
          · rw [if_neg h8,
              if_neg (show ¬(0xF0 ≤ b0 ∧ b0 < 0xF5 ∧ cursor + 3 < utf8End ∧
                  b1 &&& 0xC0 = 0x80 ∧ b2 &&& 0xC0 = 0x80 ∧ b3 &&& 0xC0 = 0x80) by
                rintro ⟨hA, hB, _⟩
                omega)]

theorem utf8AcceptedLen_bounds (buf : List Nat) (cursor utf8End len : Nat)
    (h : utf8AcceptedLen buf cursor utf8End = some len) :
    1 ≤ len ∧ len ≤ 4 ∧ cursor + len ≤ utf8End := by
  unfold utf8AcceptedLen at h
  split_ifs at h with w0 w1 w2 w3 w4 <;>
    first
      | (injection h with h; omega)
      | injection h

theorem utf8WellFormed_accepted (buf : List Nat) (cursor utf8End len : Nat)
    (h : utf8WellFormedLen buf cursor utf8End = some len) :
    utf8AcceptedLen buf cursor utf8End = some len := by
  have hb1lt : buf.getD (cursor + 1) 0 % 256 < 256 := by omega
  have hb2lt : buf.getD (cursor + 2) 0 % 256 < 256 := by omega
  have hb3lt : buf.getD (cursor + 3) 0 % 256 < 256 := by omega
  unfold utf8WellFormedLen at h
  unfold utf8AcceptedLen
  split_ifs at h with w0 w1 w2 w3 w4
  · -- one byte
    rw [if_pos w0, if_pos (by omega)]
    exact h
  · -- two bytes
    obtain ⟨hA, hB, hC, hD, hE⟩ := w2
    rw [if_pos w0, if_neg (by omega),
      if_pos (⟨by omega, by omega, hC, (and192_eq_128_iff _ hb1lt).mpr ⟨hD, hE⟩⟩ :
        0xC2 ≤ buf.getD cursor 0 % 256 ∧ buf.getD cursor 0 % 256 < 0xE0 ∧
        cursor + 1 < utf8End ∧ (buf.getD (cursor + 1) 0 % 256) &&& 0xC0 = 0x80)]
    exact h
  · -- three bytes (four well-formed lead-byte classes)
    rw [if_pos w0, if_neg (by rcases w3 with ⟨hA, _⟩ | ⟨hA, hB, _⟩ | ⟨hA, _⟩ | ⟨hA, hB, _⟩ <;> omega),
      if_neg (by rcases w3 with ⟨hA, _⟩ | ⟨hA, hB, _⟩ | ⟨hA, _⟩ | ⟨hA, hB, _⟩ <;>
        (rintro ⟨kA, kB, _⟩; omega))]
    rcases w3 with ⟨hA, hB, hC, hD, hE, hF⟩ | ⟨hA, hB, hC, hD, hE, hF, hG⟩ |
        ⟨hA, hB, hC, hD, hE, hF⟩ | ⟨hA, hB, hC, hD, hE, hF, hG⟩ <;>
      rw [if_pos (⟨by omega, by omega, by omega,
        (and192_eq_128_iff _ hb1lt).mpr ⟨by omega, by omega⟩,
        (and192_eq_128_iff _ hb2lt).mpr ⟨by omega, by omega⟩⟩ :
        0xE0 ≤ buf.getD cursor 0 % 256 ∧ buf.getD cursor 0 % 256 < 0xF0 ∧
        cursor + 2 < utf8End ∧ (buf.getD (cursor + 1) 0 % 256) &&& 0xC0 = 0x80 ∧
        (buf.getD (cursor + 2) 0 % 256) &&& 0xC0 = 0x80)] <;>
      exact h
  · -- four bytes (three well-formed lead-byte classes)
    rw [if_pos w0, if_neg (by rcases w4 with ⟨hA, _⟩ | ⟨hA, hB, _⟩ | ⟨hA, _⟩ <;> omega),
      if_neg (by rcases w4 with ⟨hA, _⟩ | ⟨hA, hB, _⟩ | ⟨hA, _⟩ <;>
        (rintro ⟨kA, kB, _⟩; omega)),
      if_neg (by rcases w4 with ⟨hA, _⟩ | ⟨hA, hB, _⟩ | ⟨hA, _⟩ <;>
        (rintro ⟨kA, kB, _⟩; omega))]
    rcases w4 with ⟨hA, hB, hC, hD, hE, hF, hG, hI⟩ | ⟨hA, hB, hC, hD, hE, hF, hG, hI, hJ⟩ |
        ⟨hA, hB, hC, hD, hE, hF, hG, hI⟩ <;>
      rw [if_pos (⟨by omega, by omega, by omega,
        (and192_eq_128_iff _ hb1lt).mpr ⟨by omega, by omega⟩,
        (and192_eq_128_iff _ hb2lt).mpr ⟨by omega, by omega⟩,
        (and192_eq_128_iff _ hb3lt).mpr ⟨by omega, by omega⟩⟩ :
        0xF0 ≤ buf.getD cursor 0 % 256 ∧ buf.getD cursor 0 % 256 < 0xF5 ∧
        cursor + 3 < utf8End ∧ (buf.getD (cursor + 1) 0 % 256) &&& 0xC0 = 0x80 ∧
        (buf.getD (cursor + 2) 0 % 256) &&& 0xC0 = 0x80 ∧
        (buf.getD (cursor + 3) 0 % 256) &&& 0xC0 = 0x80)] <;>
      exact h

theorem utf8AcceptedLen_congr (buf buf2 : List Nat) (cursor utf8End : Nat)
    (hagree : ∀ k, cursor ≤ k → k < utf8End → buf.getD k 0 = buf2.getD k 0) :
    utf8AcceptedLen buf cursor utf8End = utf8AcceptedLen buf2 cursor utf8End := by
  unfold utf8AcceptedLen
  by_cases h0 : cursor < utf8End
  · rw [if_pos h0, if_pos h0, hagree cursor (Nat.le_refl _) h0]
    refine if_congr Iff.rfl rfl ?_
    by_cases hw1 : cursor + 1 < utf8End
    · rw [hagree (cursor + 1) (by omega) hw1]
      refine if_congr Iff.rfl rfl ?_
      by_cases hw2 : cursor + 2 < utf8End
      · rw [hagree (cursor + 2) (by omega) hw2]
        refine if_congr Iff.rfl rfl ?_
        by_cases hw3 : cursor + 3 < utf8End
        · rw [hagree (cursor + 3) (by omega) hw3]
        · rw [if_neg (show ¬(0xF0 ≤ buf2.getD cursor 0 % 256 ∧
              buf2.getD cursor 0 % 256 < 0xF5 ∧ cursor + 3 < utf8End ∧
              (buf2.getD (cursor + 1) 0 % 256) &&& 0xC0 = 0x80 ∧
              (buf2.getD (cursor + 2) 0 % 256) &&& 0xC0 = 0x80 ∧
              (buf.getD (cursor + 3) 0 % 256) &&& 0xC0 = 0x80) by
              rintro ⟨hA, hB, hC, _⟩
              omega),
            if_neg (show ¬(0xF0 ≤ buf2.getD cursor 0 % 256 ∧
              buf2.getD cursor 0 % 256 < 0xF5 ∧ cursor + 3 < utf8End ∧
              (buf2.getD (cursor + 1) 0 % 256) &&& 0xC0 = 0x80 ∧
              (buf2.getD (cursor + 2) 0 % 256) &&& 0xC0 = 0x80 ∧
              (buf2.getD (cursor + 3) 0 % 256) &&& 0xC0 = 0x80) by
              rintro ⟨hA, hB, hC, _⟩
              omega)]
      · rw [if_neg (show ¬(0xE0 ≤ buf2.getD cursor 0 % 256 ∧
            buf2.getD cursor 0 % 256 < 0xF0 ∧ cursor + 2 < utf8End ∧
            (buf2.getD (cursor + 1) 0 % 256) &&& 0xC0 = 0x80 ∧
            (buf.getD (cursor + 2) 0 % 256) &&& 0xC0 = 0x80) by
            rintro ⟨hA, hB, hC, _⟩
            omega),
          if_neg (show ¬(0xE0 ≤ buf2.getD cursor 0 % 256 ∧
            buf2.getD cursor 0 % 256 < 0xF0 ∧ cursor + 2 < utf8End ∧
            (buf2.getD (cursor + 1) 0 % 256) &&& 0xC0 = 0x80 ∧
            (buf2.getD (cursor + 2) 0 % 256) &&& 0xC0 = 0x80) by
            rintro ⟨hA, hB, hC, _⟩
            omega),
          if_neg (show ¬(0xF0 ≤ buf2.getD cursor 0 % 256 ∧
            buf2.getD cursor 0 % 256 < 0xF5 ∧ cursor + 3 < utf8End ∧
            (buf2.getD (cursor + 1) 0 % 256) &&& 0xC0 = 0x80 ∧
            (buf.getD (cursor + 2) 0 % 256) &&& 0xC0 = 0x80 ∧
            (buf.getD (cursor + 3) 0 % 256) &&& 0xC0 = 0x80) by
            rintro ⟨hA, hB, hC, _⟩
            omega),
          if_neg (show ¬(0xF0 ≤ buf2.getD cursor 0 % 256 ∧
            buf2.getD cursor 0 % 256 < 0xF5 ∧ cursor + 3 < utf8End ∧
            (buf2.getD (cursor + 1) 0 % 256) &&& 0xC0 = 0x80 ∧
            (buf2.getD (cursor + 2) 0 % 256) &&& 0xC0 = 0x80 ∧
            (buf2.getD (cursor + 3) 0 % 256) &&& 0xC0 = 0x80) by
            rintro ⟨hA, hB, hC, _⟩
            omega)]
    · rw [if_neg (show ¬(0xC2 ≤ buf2.getD cursor 0 % 256 ∧
          buf2.getD cursor 0 % 256 < 0xE0 ∧ cursor + 1 < utf8End ∧
          (buf.getD (cursor + 1) 0 % 256) &&& 0xC0 = 0x80) by
          rintro ⟨hA, hB, hC, _⟩
          omega),
        if_neg (show ¬(0xC2 ≤ buf2.getD cursor 0 % 256 ∧
          buf2.getD cursor 0 % 256 < 0xE0 ∧ cursor + 1 < utf8End ∧
          (buf2.getD (cursor + 1) 0 % 256) &&& 0xC0 = 0x80) by
          rintro ⟨hA, hB, hC, _⟩
          omega),
        if_neg (show ¬(0xE0 ≤ buf2.getD cursor 0 % 256 ∧
          buf2.getD cursor 0 % 256 < 0xF0 ∧ cursor + 2 < utf8End ∧
          (buf.getD (cursor + 1) 0 % 256) &&& 0xC0 = 0x80 ∧
          (buf.getD (cursor + 2) 0 % 256) &&& 0xC0 = 0x80) by
          rintro ⟨hA, hB, hC, _⟩
          omega),
        if_neg (show ¬(0xE0 ≤ buf2.getD cursor 0 % 256 ∧
          buf2.getD cursor 0 % 256 < 0xF0 ∧ cursor + 2 < utf8End ∧
          (buf2.getD (cursor + 1) 0 % 256) &&& 0xC0 = 0x80 ∧
          (buf2.getD (cursor + 2) 0 % 256) &&& 0xC0 = 0x80) by
          rintro ⟨hA, hB, hC, _⟩
          omega),
        if_neg (show ¬(0xF0 ≤ buf2.getD cursor 0 % 256 ∧
          buf2.getD cursor 0 % 256 < 0xF5 ∧ cursor + 3 < utf8End ∧
          (buf.getD (cursor + 1) 0 % 256) &&& 0xC0 = 0x80 ∧
          (buf.getD (cursor + 2) 0 % 256) &&& 0xC0 = 0x80 ∧
          (buf.getD (cursor + 3) 0 % 256) &&& 0xC0 = 0x80) by
          rintro ⟨hA, hB, hC, _⟩
          omega),
        if_neg (show ¬(0xF0 ≤ buf2.getD cursor 0 % 256 ∧
          buf2.getD cursor 0 % 256 < 0xF5 ∧ cursor + 3 < utf8End ∧
          (buf2.getD (cursor + 1) 0 % 256) &&& 0xC0 = 0x80 ∧
          (buf2.getD (cursor + 2) 0 % 256) &&& 0xC0 = 0x80 ∧
          (buf2.getD (cursor + 3) 0 % 256) &&& 0xC0 = 0x80) by
          rintro ⟨hA, hB, hC, _⟩
          omega)]
  · rw [if_neg h0, if_neg h0]

theorem utf8SpecValue_congr (buf buf2 : List Nat) (cursor utf8End : Nat)
    (hagree : ∀ k, cursor ≤ k → k < utf8End → buf.getD k 0 = buf2.getD k 0)
    (len : Nat) (hlen : len ≤ 4) (hfit : cursor + len ≤ utf8End) :
    utf8SpecValue buf cursor len = utf8SpecValue buf2 cursor len := by
  interval_cases len
  · rfl
  · unfold utf8SpecValue
    rw [hagree cursor (Nat.le_refl _) (by omega)]
  · unfold utf8SpecValue
    rw [hagree cursor (Nat.le_refl _) (by omega), hagree (cursor + 1) (by omega) (by omega)]
  · unfold utf8SpecValue
    rw [hagree cursor (Nat.le_refl _) (by omega), hagree (cursor + 1) (by omega) (by omega),
      hagree (cursor + 2) (by omega) (by omega)]
  · unfold utf8SpecValue
    rw [hagree cursor (Nat.le_refl _) (by omega), hagree (cursor + 1) (by omega) (by omega),
      hagree (cursor + 2) (by omega) (by omega), hagree (cursor + 3) (by omega) (by omega)]

/-- C9 counterexample: the three bytes `ED A0 80` (the CESU-8 encoding of the
surrogate U+D800) do not form a well-formed UTF-8 sequence, yet
`readCodePoint_utf8` does not return `INVALID_CODE_POINT` with the cursor
unchanged — it decodes them to 0xD800 and advances the cursor by 3. -/
theorem readCodePoint_utf8_surrogate_counterexample :
    utf8WellFormedLen [0xED, 0xA0, 0x80] 0 3 = none ∧
    readCodePoint_utf8 [0xED, 0xA0, 0x80] 0 3 = (0xD800, 3) ∧
    (0xD800 : Nat) ≠ INVALID_CODE_POINT ∧ (3 : Nat) ≠ 0 := by
  refine ⟨by decide, by decide, by decide, by decide⟩

/-- C9 (amended): `readCodePoint_utf8` reads only bytes in
`[cursor, utf8End)` — its result depends on no other buffer content; whenever
the bytes at the cursor do not begin a sequence of the accepted shape (a lead
byte in `0x00..0x7F`, `0xC2..0xDF`, `0xE0..0xEF` or `0xF0..0xF4` followed by
the required number of `10xxxxxx` continuation bytes, all before `utf8End`;
this includes the case `cursor ≥ utf8End`) it returns `INVALID_CODE_POINT`
and leaves the cursor unchanged; on an accepted sequence it advances the
cursor by exactly the sequence length (1 to 4 bytes) and returns the code
point assembled from the payload bits.  Unlike well-formed UTF-8, the
accepted shape does not exclude overlong 3- and 4-byte encodings, surrogates,
or values above U+10FFFF; every well-formed sequence is accepted (with the
same length). -/
theorem readCodePoint_utf8_spec (buf : List Nat) (cursor utf8End : Nat) :
    (utf8AcceptedLen buf cursor utf8End = none →
      readCodePoint_utf8 buf cursor utf8End = (INVALID_CODE_POINT, cursor)) ∧
    (∀ len, utf8AcceptedLen buf cursor utf8End = some len →
      1 ≤ len ∧ len ≤ 4 ∧ cursor + len ≤ utf8End ∧
      readCodePoint_utf8 buf cursor utf8End = (utf8SpecValue buf cursor len, cursor + len)) ∧
    (∀ len, utf8WellFormedLen buf cursor utf8End = some len →
      utf8AcceptedLen buf cursor utf8End = some len) ∧
    (∀ buf2, (∀ k, cursor ≤ k → k < utf8End → buf.getD k 0 = buf2.getD k 0) →
      readCodePoint_utf8 buf cursor utf8End = readCodePoint_utf8 buf2 cursor utf8End) := by
  refine ⟨?_, ?_, ?_, ?_⟩
  · intro h
    rw [readCodePoint_utf8_eq_accepted, h]
  · intro len h
    obtain ⟨hb1, hb2, hb3⟩ := utf8AcceptedLen_bounds buf cursor utf8End len h
    refine ⟨hb1, hb2, hb3, ?_⟩
    rw [readCodePoint_utf8_eq_accepted, h]
  · exact fun len h => utf8WellFormed_accepted buf cursor utf8End len h
  · intro buf2 hagree
    rw [readCodePoint_utf8_eq_accepted, readCodePoint_utf8_eq_accepted,
      utf8AcceptedLen_congr buf buf2 cursor utf8End hagree]
    cases hacc : utf8AcceptedLen buf2 cursor utf8End with
    | none => rfl
    | some len =>
      obtain ⟨hb1, hb2, hb3⟩ := utf8AcceptedLen_bounds buf2 cursor utf8End len hacc
      show (utf8SpecValue buf cursor len, cursor + len)
          = (utf8SpecValue buf2 cursor len, cursor + len)
      rw [utf8SpecValue_congr buf buf2 cursor utf8End hagree len hb2 hb3]

/-- Witness for C9's amended theorem: a one-byte sequence is accepted and
decoded, and an empty window is rejected with the cursor unchanged. -/
theorem readCodePoint_utf8_spec_witness :
    readCodePoint_utf8 [0x79] 0 1 = (0x79, 1) ∧
    readCodePoint_utf8 [0x79] 1 1 = (INVALID_CODE_POINT, 1) := by
  constructor
  · have h := ((readCodePoint_utf8_spec [0x79] 0 1).2.1 1 (by decide)).2.2.2
    simpa using h
  · exact (readCodePoint_utf8_spec [0x79] 1 1).1 (by decide)

/-! ### C8 — ConfigManager.getValue memorizes the default -/

/-- Writing back the value already stored leaves the association list
unchanged (the source's `data changed?` check skips exactly such writes). -/
theorem insertA_lookupA_self {V : Type} (m : List (String × V)) (k : String) (v : V)
    (h : lookupA m k = some v) : insertA m k v = m := by
  induction m with
  | nil => simp [lookupA] at h
  | cons hd tl ih =>
    obtain ⟨k0, v0⟩ := hd
    by_cases h0 : k0 = k
    · subst h0
      simp [lookupA] at h
      simp [insertA, h]
    · simp [lookupA, h0] at h
      simp [insertA, h0, ih h]

/-- After `setValueGo`, descending the same path finds the stored value. -/
theorem lookupGroups_setValueGo (d : JVal) :
    ∀ (gs : List String) (k : String) (data : JMap),
      ∃ g, lookupGroups (ConfigManager.setValueGo data gs k d) gs = some g ∧
        lookupA g k = some d := by
  intro gs
  induction gs with
  | nil =>
    intro k data
    exact ⟨insertA data k d, rfl, lookupA_insertA_self data k d⟩
  | cons g gs ih =>
    intro k data
    unfold ConfigManager.setValueGo
    split
    next m heq =>
      obtain ⟨g', hg', hk'⟩ := ih k m
      exact ⟨g', by simp [lookupGroups, lookupA_insertA_self, hg'], hk'⟩
    next heq =>
      obtain ⟨g', hg', hk'⟩ := ih k []
      exact ⟨g', by simp [lookupGroups, lookupA_insertA_self, hg'], hk'⟩

/-- Reading a key right after storing a (non-void) value under it yields that
value, whatever the previous store contents. -/
theorem getValue_after_setValue (data : JMap) (key : String) (d : JVal) :
    (ConfigManager.getValue (ConfigManager.setValue data key (some d)) key none).1
      = some d := by
  obtain ⟨g, hg, hk⟩ :=
    lookupGroups_setValueGo d (splitKey key).dropLast (lastKey key) data
  have hset : ConfigManager.setValue data key (some d)
      = ConfigManager.setValueGo data (splitKey key).dropLast (lastKey key) d :=
    rfl
  rw [hset]
  unfold ConfigManager.getValue
  simp [hg, hk, deepCopy]

/-- C8: for a key that is not set, `getValue(key, default)` with a non-void
default returns the default and memorizes it, so a subsequent `getValue(key)`
returns an equal value; with a void default it returns void and leaves the
store unchanged; and whenever a value is stored under the key, the returned
value is the JSON round-trip copy of the stored value. -/
theorem configManager_getValue_spec (data : JMap) (key : String) (d : JVal)
    (hunset : ConfigManager.isUnset data key) :
    ConfigManager.getValue data key none = (none, data) ∧
    (ConfigManager.getValue data key (some d)).1 = some d ∧
    (ConfigManager.getValue
        (ConfigManager.getValue data key (some d)).2 key none).1 = some d ∧
    (∀ (data2 : JMap) (g : JMap) (v : JVal) (dflt : Option JVal),
      lookupGroups data2 (splitKey key).dropLast = some g →
      lookupA g (lastKey key) = some v →
      (ConfigManager.getValue data2 key dflt).1 = some (deepCopy v)) := by
  unfold ConfigManager.isUnset at hunset
  refine ⟨?_, ?_, ?_, ?_⟩
  · unfold ConfigManager.getValue
    cases hlg : lookupGroups data (splitKey key).dropLast with
    | none => rfl
    | some group =>
      simp only [hlg] at hunset
      simp [hunset]
  · unfold ConfigManager.getValue
    cases hlg : lookupGroups data (splitKey key).dropLast with
    | none => rfl
    | some group =>
      simp only [hlg] at hunset
      simp [hunset]
  · have hsnd : (ConfigManager.getValue data key (some d)).2
        = ConfigManager.setValue data key (some d) := by
      unfold ConfigManager.getValue
      cases hlg : lookupGroups data (splitKey key).dropLast with
      | none => rfl
      | some group =>
        simp only [hlg] at hunset
        simp [hunset]
    rw [hsnd]
    exact getValue_after_setValue data key d
  · intro data2 g v dflt hlg hk
    unfold ConfigManager.getValue
    simp [hlg, hk]

/-- Witness for C8 at a concrete store and dotted key: the store has the
group but not the entry; the default 7 is returned and memorized. -/
theorem configManager_getValue_spec_witness :
    ConfigManager.getValue [("Foo", JVal.map [("other", JVal.num 1)])] "Foo.bar" none
      = (none, [("Foo", JVal.map [("other", JVal.num 1)])]) ∧
    (ConfigManager.getValue
      (ConfigManager.getValue [("Foo", JVal.map [("other", JVal.num 1)])] "Foo.bar"
        (some (JVal.num 7))).2 "Foo.bar" none).1 = some (JVal.num 7) := by
  have h := configManager_getValue_spec [("Foo", JVal.map [("other", JVal.num 1)])]
    "Foo.bar" (JVal.num 7)
    (by unfold ConfigManager.isUnset
        have h1 : lookupGroups [("Foo", JVal.map [("other", JVal.num 1)])]
            (splitKey "Foo.bar").dropLast = some [("other", JVal.num 1)] := by
          rw [show (splitKey "Foo.bar").dropLast = ["Foo"] from by decide]
          rfl
        rw [h1]
        show lookupA [("other", JVal.num 1)] (lastKey "Foo.bar") = none
        rw [show lastKey "Foo.bar" = "bar" from by decide]
        rfl)
  exact ⟨h.1, h.2.2.1⟩

/-! ### C5 — serialization emits back-references and restores sharing -/

theorem getD_modify_ne {α : Type} (l : List α) (f : α → α) (i j : Nat) (d : α)
    (h : i ≠ j) : (l.modify f i).getD j d = l.getD j d := by
  rw [List.getD_eq_getElem?_getD, List.getD_eq_getElem?_getD, List.getElem?_modify]
  simp [h]

theorem modify_modify_same {α : Type} :
    ∀ (l : List α) (f g : α → α) (n : Nat),
      (l.modify f n).modify g n = l.modify (fun x => g (f x)) n := by
  intro l
  induction l with
  | nil =>
    intro f g n
    cases n <;> rfl
  | cons x xs ih =>
    intro f g n
    cases n with
    | zero => rfl
    | succ n =>
      show x :: (xs.modify f n).modify g n = x :: xs.modify (fun y => g (f y)) n
      rw [ih]

theorem createDescrVal_prim (h : ObjHeap) (fuel : Nat) (v : SVal) (ctx : SerCtx)
    (hp : isPrimB v = true) : createDescrVal h fuel v ctx = (descrOfPrim v, ctx) := by
  cases v with
  | svoid => rw [createDescrVal]; rfl
  | snum n => rw [createDescrVal]; rfl
  | sstr s => rw [createDescrVal]; rfl
  | sref a => simp [isPrimB] at hp

/-- Describing an unregistered object: register it under the next id, then
describe its attributes. -/
theorem createDescrVal_sref_new (h : ObjHeap) (fuel : Nat) (a : Nat) (ctx : SerCtx)
    (hfuel : 0 < fuel) (hun : lookupN ctx.objRegistry_NrToObjId a = none) :
    createDescrVal h fuel (.sref a) ctx =
      (.dobj (ctx.counter + 1)
        (createDescrAttrs h (fuel - 1) (h.attrsAt a)
          ⟨(a, ctx.counter + 1) :: ctx.objRegistry_NrToObjId, ctx.counter + 1⟩).1,
        (createDescrAttrs h (fuel - 1) (h.attrsAt a)
          ⟨(a, ctx.counter + 1) :: ctx.objRegistry_NrToObjId, ctx.counter + 1⟩).2) := by
  obtain ⟨fuel', rfl⟩ : ∃ f, fuel = f + 1 := ⟨fuel - 1, by omega⟩
  rw [createDescrVal, hun]
  simp

/-- Describing an already registered object yields the back-reference. -/
theorem createDescrVal_sref_seen (h : ObjHeap) (fuel : Nat) (a id : Nat) (ctx : SerCtx)
    (hr : lookupN ctx.objRegistry_NrToObjId a = some id) :
    createDescrVal h fuel (.sref a) ctx = (.dref id, ctx) := by
  cases fuel with
  | zero => rw [createDescrVal.eq_4, hr]
  | succ fuel' => rw [createDescrVal.eq_5, hr]

theorem createObjVal_prim (v : SVal) (ctx : DeCtx) (hp : isPrimB v = true) :
    createObjVal (descrOfPrim v) ctx = (v, ctx) := by
  cases v with
  | svoid => rfl
  | snum n => rfl
  | sstr s => rfl
  | sref a => simp [isPrimB] at hp

theorem lookupA_append_nomem {V : Type} :
    ∀ (l1 l2 : List (String × V)) (k : String),
      (∀ e ∈ l1, e.1 ≠ k) →
      lookupA (l1 ++ l2) k = lookupA l2 k := by
  intro l1
  induction l1 with
  | nil =>
    intro l2 k _
    rfl
  | cons e rest ih =>
    intro l2 k hl
    obtain ⟨k0, v0⟩ := e
    show lookupA ((k0, v0) :: (rest ++ l2)) k = _
    rw [lookupA, if_neg (hl (k0, v0) (by simp)), ih l2 k (fun e he => hl e (by simp [he]))]

theorem length_modify {α : Type} :
    ∀ (l : List α) (f : α → α) (n : Nat), (l.modify f n).length = l.length := by
  intro l
  induction l with
  | nil => intro f n; cases n <;> rfl
  | cons x xs ih =>
    intro f n
    cases n with
    | zero => rfl
    | succ n => show (x :: xs.modify f n).length = _; simp [ih]

theorem lookupN_mem {V : Type} :
    ∀ (l : List (Nat × V)) (k : Nat) (v : V), lookupN l k = some v → (k, v) ∈ l := by
  intro l
  induction l with
  | nil => intro k v hl; exact absurd hl (by simp [lookupN])
  | cons e rest ih =>
    intro k v hl
    obtain ⟨k0, v0⟩ := e
    rw [lookupN] at hl
    by_cases hk : k0 = k
    · rw [if_pos hk] at hl
      injection hl with hv
      subst hk
      subst hv
      exact List.mem_cons_self _ _
    · rw [if_neg hk] at hl
      exact List.mem_cons_of_mem _ (ih k v hl)

theorem lookupN_eq_none {V : Type} :
    ∀ (l : List (Nat × V)) (k : Nat), k ∉ l.map Prod.fst → lookupN l k = none := by
  intro l
  induction l with
  | nil => intro k _; rfl
  | cons e rest ih =>
    intro k hk
    obtain ⟨k0, v0⟩ := e
    have h0 : ¬ k0 = k := fun h0 => hk (by simp [h0])
    rw [lookupN, if_neg h0]
    exact ih k (fun hmem => hk (by simp [hmem]))

theorem not_mem_of_lookupN_none {V : Type} :
    ∀ (l : List (Nat × V)) (k : Nat), lookupN l k = none → k ∉ l.map Prod.fst := by
  intro l
  induction l with
  | nil => intro k _ hk; simp at hk
  | cons e rest ih =>
    intro k hl hk
    obtain ⟨k0, v0⟩ := e
    rw [lookupN] at hl
    by_cases h0 : k0 = k
    · rw [if_pos h0] at hl
      exact absurd hl (by simp)
    · rw [if_neg h0] at hl
      rw [List.map_cons] at hk
      rcases List.mem_cons.mp hk with h1 | h2
      · exact h0 h1.symm
      · exact ih k hl h2

theorem lookupN_regD_of_mem :
    ∀ (reg : List (Nat × Nat)) (a id : Nat), (a, id) ∈ reg →
      lookupN (regD reg) id = some (id - 1) := by
  intro reg
  induction reg with
  | nil => intro a id hm; simp at hm
  | cons e rest ih =>
    intro a id hm
    obtain ⟨a0, id0⟩ := e
    show lookupN ((id0, id0 - 1) :: regD rest) id = some (id - 1)
    by_cases hid : id0 = id
    · rw [lookupN, if_pos hid, hid]
    · rw [lookupN, if_neg hid]
      rcases List.mem_cons.mp hm with h1 | h2
      · exact absurd (congrArg Prod.snd h1).symm hid
      · exact ih a id h2

theorem lookupN_append_none {V : Type} :
    ∀ (l1 l2 : List (Nat × V)) (k : Nat), lookupN l1 k = none →
      lookupN (l1 ++ l2) k = lookupN l2 k := by
  intro l1
  induction l1 with
  | nil => intro l2 k _; rfl
  | cons e rest ih =>
    intro l2 k hk
    obtain ⟨k0, v0⟩ := e
    rw [lookupN] at hk
    by_cases h0 : k0 = k
    · rw [if_pos h0] at hk
      exact absurd hk (by simp)
    · rw [if_neg h0] at hk
      show lookupN ((k0, v0) :: (rest ++ l2)) k = _
      rw [lookupN, if_neg h0]
      exact ih l2 k hk

theorem lookupN_stable {V : Type} (new reg : List (Nat × V)) (k : Nat) (v : V)
    (hnd : ((new ++ reg).map Prod.fst).Nodup)
    (hl : lookupN reg k = some v) : lookupN (new ++ reg) k = some v := by
  have hmem : k ∈ reg.map Prod.fst :=
    List.mem_map.mpr ⟨(k, v), lookupN_mem reg k v hl, rfl⟩
  have hnew : k ∉ new.map Prod.fst := by
    rw [List.map_append] at hnd
    intro hk
    exact (List.disjoint_of_nodup_append hnd) hk hmem
  rw [lookupN_append_none new reg k (lookupN_eq_none new k hnew), hl]

theorem countdown_mem : ∀ (n x : Nat), x ∈ countdown n → 1 ≤ x ∧ x ≤ n := by
  intro n
  induction n with
  | zero => intro x hx; exact absurd hx (by simp [countdown])
  | succ n ih =>
    intro x hx
    rw [countdown] at hx
    rcases List.mem_cons.mp hx with h1 | h2
    · omega
    · have := ih x h2
      omega

theorem countdown_length : ∀ n : Nat, (countdown n).length = n := by
  intro n
  induction n with
  | zero => rfl
  | succ n ih => rw [countdown]; simp [ih]

theorem filter_lt_map_fst (N : Nat) :
    ∀ (l : List (Nat × Nat)),
      (l.filter (fun e => e.1 < N)).map Prod.fst
        = (l.map Prod.fst).filter (fun k => k < N) := by
  intro l
  induction l with
  | nil => rfl
  | cons e rest ih =>
    obtain ⟨k0, v0⟩ := e
    by_cases h0 : k0 < N
    · simp [List.filter_cons, h0, ih]
    · simp [List.filter_cons, h0, ih]

theorem nodup_lt_length_le (N : Nat) (l : List Nat) (hnd : l.Nodup)
    (hlt : ∀ x ∈ l, x < N) : l.length ≤ N := by
  have h1 : l.toFinset ⊆ Finset.range N := by
    intro x hx
    rw [List.mem_toFinset] at hx
    exact Finset.mem_range.mpr (hlt x hx)
  have h2 := Finset.card_le_card h1
  rw [List.toFinset_card_of_nodup hnd, Finset.card_range] at h2
  exact h2

theorem regInRange_le (h : ObjHeap) (ctx : SerCtx) (hg : GoodReg ctx) :
    regInRange h ctx ≤ h.objs.length := by
  have hkey : ((ctx.objRegistry_NrToObjId.filter
      (fun e => e.1 < h.objs.length)).map Prod.fst).length ≤ h.objs.length := by
    rw [filter_lt_map_fst]
    refine nodup_lt_length_le _ _ (List.Nodup.filter _ hg.1) ?_
    intro x hx
    have := List.of_mem_filter hx
    simpa using this
  rw [List.length_map] at hkey
  exact hkey

theorem sufFuel_mono (h : ObjHeap) (sctx sctx2 : SerCtx) (fuel : Nat)
    (hext : ∃ new, sctx2.objRegistry_NrToObjId = new ++ sctx.objRegistry_NrToObjId)
    (hsf : SufFuel h sctx fuel) : SufFuel h sctx2 fuel := by
  obtain ⟨new, hnew⟩ := hext
  unfold SufFuel regInRange at hsf ⊢
  rw [hnew, List.filter_append, List.length_append]
  omega

theorem trVal_stable (s s2 : SerCtx) (v : SVal)
    (hnd : (s2.objRegistry_NrToObjId.map Prod.fst).Nodup)
    (hext : ∃ new, s2.objRegistry_NrToObjId = new ++ s.objRegistry_NrToObjId)
    (hreg : ∀ a, v = SVal.sref a → ∃ id, lookupN s.objRegistry_NrToObjId a = some id) :
    trVal s2 v = trVal s v := by
  cases v with
  | sref a =>
    obtain ⟨id, hid⟩ := hreg a rfl
    obtain ⟨new, hnew⟩ := hext
    have h2 : lookupN s2.objRegistry_NrToObjId a = some id := by
      rw [hnew]
      exact lookupN_stable new _ a id (hnew ▸ hnd) hid
    show SVal.sref ((lookupN s2.objRegistry_NrToObjId a).getD 1 - 1)
      = SVal.sref ((lookupN s.objRegistry_NrToObjId a).getD 1 - 1)
    rw [h2, hid]
  | svoid => rfl
  | snum n => rfl
  | sstr t => rfl

theorem applyTrInserts_cons (s : SerCtx) (A : ObjAttrs) (e : String × SVal)
    (l : ObjAttrs) :
    applyTrInserts s A (e :: l)
      = applyTrInserts s
          (if restoreSkipped e.1 then A else insertA A e.1 (trVal s e.2)) l := rfl

theorem lookupA_applyTrInserts_nomem (s : SerCtx) :
    ∀ (l : ObjAttrs) (A : ObjAttrs) (k : String), (∀ e ∈ l, e.1 ≠ k) →
      lookupA (applyTrInserts s A l) k = lookupA A k := by
  intro l
  induction l with
  | nil => intro A k _; rfl
  | cons e rest ih =>
    intro A k hl
    rw [applyTrInserts_cons, ih _ k (fun e he => hl e (List.mem_cons_of_mem _ he))]
    by_cases hs : restoreSkipped e.1 = true
    · rw [if_pos hs]
    · rw [if_neg hs, lookupA_insertA_ne A e.1 k _ (hl e (List.mem_cons_self _ _))]

theorem lookupA_applyTrInserts_mem (s : SerCtx) :
    ∀ (l : ObjAttrs) (A : ObjAttrs) (k : String) (v : SVal),
      (l.map Prod.fst).Nodup → (k, v) ∈ l → restoreSkipped k = false →
      lookupA (applyTrInserts s A l) k = some (trVal s v) := by
  intro l
  induction l with
  | nil => intro A k v _ hm _; simp at hm
  | cons e rest ih =>
    intro A k v hnd hm hk
    rw [applyTrInserts_cons]
    rcases List.mem_cons.mp hm with h1 | h2
    · obtain ⟨k0, v0⟩ := e
      injection h1 with hk0 hv0
      subst hk0
      subst hv0
      have hnk : k ∉ rest.map Prod.fst := by
        rw [List.map_cons] at hnd
        exact (List.nodup_cons.mp hnd).1
      rw [lookupA_applyTrInserts_nomem s rest _ k
        (fun e he hek => hnk (hek ▸ List.mem_map.mpr ⟨e, he, rfl⟩))]
      rw [if_neg (by simp [hk]), lookupA_insertA_self]
    · refine ih _ k v ?_ h2 hk
      rw [List.map_cons] at hnd
      exact (List.nodup_cons.mp hnd).2

theorem lookupA_mem {V : Type} :
    ∀ (l : List (String × V)) (k : String) (v : V),
      lookupA l k = some v → (k, v) ∈ l := by
  intro l
  induction l with
  | nil => intro k v hl; exact absurd hl (by simp [lookupA])
  | cons e rest ih =>
    intro k v hl
    obtain ⟨k0, v0⟩ := e
    rw [lookupA] at hl
    by_cases hk : k0 = k
    · rw [if_pos hk] at hl
      injection hl with hv
      subst hk
      subst hv
      exact List.mem_cons_self _ _
    · rw [if_neg hk] at hl
      exact List.mem_cons_of_mem _ (ih k v hl)

theorem lookupA_none_ne {V : Type} :
    ∀ (l : List (String × V)) (k : String), lookupA l k = none →
      ∀ e ∈ l, e.1 ≠ k := by
  intro l
  induction l with
  | nil => intro k _ e he; simp at he
  | cons e0 rest ih =>
    intro k hl e he
    obtain ⟨k0, v0⟩ := e0
    rw [lookupA] at hl
    by_cases h0 : k0 = k
    · rw [if_pos h0] at hl
      exact absurd hl (by simp)
    · rw [if_neg h0] at hl
      rcases List.mem_cons.mp he with h1 | h2
      · rw [h1]; exact h0
      · exact ih k hl e h2

theorem regD_keys (reg : List (Nat × Nat)) :
    (regD reg).map Prod.fst = reg.map Prod.snd := by
  unfold regD
  rw [List.map_map]
  rfl

theorem goodReg_cons (sctx : SerCtx) (a : Nat) (hg : GoodReg sctx)
    (hnew : lookupN sctx.objRegistry_NrToObjId a = none) :
    GoodReg ⟨(a, sctx.counter + 1) :: sctx.objRegistry_NrToObjId, sctx.counter + 1⟩ := by
  constructor
  · rw [List.map_cons]
    exact List.nodup_cons.mpr ⟨not_mem_of_lookupN_none _ a hnew, hg.1⟩
  · show (sctx.counter + 1) :: sctx.objRegistry_NrToObjId.map Prod.snd
      = countdown (sctx.counter + 1)
    rw [hg.2]
    rfl

theorem lookupN_regD_counter_none (sctx : SerCtx) (hg : GoodReg sctx) :
    lookupN (regD sctx.objRegistry_NrToObjId) (sctx.counter + 1) = none := by
  apply lookupN_eq_none
  rw [regD_keys, hg.2]
  intro hmem
  have := countdown_mem sctx.counter _ hmem
  omega

theorem regInRange_cons_lt (h : ObjHeap) (a id : Nat) (reg : List (Nat × Nat))
    (ha : a < h.objs.length) :
    (((a, id) :: reg).filter (fun e => e.1 < h.objs.length)).length
      = (reg.filter (fun e => e.1 < h.objs.length)).length + 1 := by
  rw [List.filter_cons]
  simp [ha]

theorem createObjVal_dref_reg (id aH : Nat) (ctx : DeCtx)
    (hl : lookupN ctx.objRegistry_ObjIdToObj id = some aH) :
    createObjVal (Descr.dref id) ctx = (SVal.sref aH, ctx) := by
  rw [createObjVal, hl]

theorem createObjVal_dobj_new (id : Nat) (attrs : List (String × Descr)) (ctx : DeCtx)
    (hl : lookupN ctx.objRegistry_ObjIdToObj id = none) :
    createObjVal (Descr.dobj id attrs) ctx
      = (SVal.sref ctx.heap.length,
          createObjAttrs attrs ctx.heap.length
            ⟨ctx.heap ++ [[]], (id, ctx.heap.length) :: ctx.objRegistry_ObjIdToObj⟩) := by
  rw [createObjVal, hl]

/-- The serialize/deserialize simulation, by strong induction on the fuel:
deserializing the description produced by a serializing run replays the run
object for object — the object registered under id `id` is allocated at
address `id - 1`, every reference is reconstructed to the address of its
target's single reconstruction, and already filled heap cells other than
the one being filled stay untouched. -/
theorem serDesSim (h : ObjHeap)
    (hmeta : ∀ o ∈ h.objs, ∀ e ∈ o, metaKey e.1 = false) :
    ∀ fuel : Nat, PVal h fuel ∧ PAttrs h fuel := by
  intro fuel
  induction fuel using Nat.strong_induction_on with
  | _ fuel IH =>
  have pval : PVal h fuel := by
    unfold PVal
    intro v sctx sctx2 d dctx hser hgood hfuel hinv
    cases v with
    | svoid =>
      rw [createDescrVal] at hser
      injection hser with h1 h2
      subst h1
      subst h2
      refine ⟨hgood, ⟨[], rfl⟩, ?_, rfl, hinv, Nat.le_refl _, fun j _ => rfl⟩
      intro a ha
      exact absurd ha (by simp)
    | snum n =>
      rw [createDescrVal] at hser
      injection hser with h1 h2
      subst h1
      subst h2
      refine ⟨hgood, ⟨[], rfl⟩, ?_, rfl, hinv, Nat.le_refl _, fun j _ => rfl⟩
      intro a ha
      exact absurd ha (by simp)
    | sstr t =>
      rw [createDescrVal] at hser
      injection hser with h1 h2
      subst h1
      subst h2
      refine ⟨hgood, ⟨[], rfl⟩, ?_, rfl, hinv, Nat.le_refl _, fun j _ => rfl⟩
      intro a ha
      exact absurd ha (by simp)
    | sref a =>
      cases hl : lookupN sctx.objRegistry_NrToObjId a with
      | some id =>
        rw [createDescrVal_sref_seen h fuel a id sctx hl] at hser
        injection hser with h1 h2
        subst h1
        subst h2
        have hdl : lookupN dctx.objRegistry_ObjIdToObj id = some (id - 1) := by
          rw [hinv.1]
          exact lookupN_regD_of_mem _ a id (lookupN_mem _ a id hl)
        rw [createObjVal_dref_reg id (id - 1) dctx hdl]
        refine ⟨hgood, ⟨[], rfl⟩, ?_, ?_, hinv, Nat.le_refl _, fun j _ => rfl⟩
        · intro a2 ha2
          injection ha2 with ha2
          subst ha2
          exact ⟨id, hl, Or.inl rfl⟩
        · show SVal.sref (id - 1)
            = SVal.sref ((lookupN sctx.objRegistry_NrToObjId a).getD 1 - 1)
          rw [hl]
          rfl
      | none =>
        cases fuel with
        | zero =>
          exfalso
          have h1 := regInRange_le h sctx hgood
          unfold SufFuel at hfuel
          omega
        | succ f =>
          rw [createDescrVal_sref_new h (f + 1) a sctx (by omega) hl] at hser
          simp only [Nat.add_sub_cancel] at hser
          cases hA : createDescrAttrs h f (h.attrsAt a)
              ⟨(a, sctx.counter + 1) :: sctx.objRegistry_NrToObjId, sctx.counter + 1⟩ with
          | mk attrs1 sctx1 =>
          rw [hA] at hser
          injection hser with h1 h2
          subst h1
          subst h2
          have hcne : lookupN dctx.objRegistry_ObjIdToObj (sctx.counter + 1) = none := by
            rw [hinv.1]
            exact lookupN_regD_counter_none sctx hgood
          have hgood1 := goodReg_cons sctx a hgood hl
          have hS1a : lookupN ((a, sctx.counter + 1) :: sctx.objRegistry_NrToObjId) a
              = some (sctx.counter + 1) := by
            rw [lookupN, if_pos rfl]
          have hinv1 : InvSD
              ⟨(a, sctx.counter + 1) :: sctx.objRegistry_NrToObjId, sctx.counter + 1⟩
              ⟨dctx.heap ++ [[]],
                (sctx.counter + 1, dctx.heap.length) :: dctx.objRegistry_ObjIdToObj⟩ := by
            constructor
            · show (sctx.counter + 1, dctx.heap.length) :: dctx.objRegistry_ObjIdToObj
                = (sctx.counter + 1, sctx.counter + 1 - 1)
                    :: regD sctx.objRegistry_NrToObjId
              rw [hinv.1, hinv.2, Nat.add_sub_cancel]
            · show (dctx.heap ++ [[]]).length = sctx.counter + 1
              rw [List.length_append, List.length_singleton, hinv.2]
          rw [createObjVal_dobj_new (sctx.counter + 1) attrs1 dctx hcne]
          by_cases haN : a < h.objs.length
          · -- a fresh heap object: recurse into its attributes
            have hfuel1 : SufFuel h
                ⟨(a, sctx.counter + 1) :: sctx.objRegistry_NrToObjId, sctx.counter + 1⟩
                f := by
              unfold SufFuel at hfuel ⊢
              unfold regInRange at hfuel ⊢
              rw [regInRange_cons_lt h a (sctx.counter + 1) sctx.objRegistry_NrToObjId haN]
              omega
            have hmetaA : ∀ e ∈ h.attrsAt a, metaKey e.1 = false := by
              intro e he
              have hmem : h.attrsAt a ∈ h.objs := by
                unfold ObjHeap.attrsAt
                rw [List.getD_eq_getElem h.objs [] haN]
                exact List.getElem_mem haN
              exact hmeta _ hmem e he
            have PA := (IH f (by omega)).2 (h.attrsAt a)
              ⟨(a, sctx.counter + 1) :: sctx.objRegistry_NrToObjId, sctx.counter + 1⟩
              sctx1 attrs1
              ⟨dctx.heap ++ [[]],
                (sctx.counter + 1, dctx.heap.length) :: dctx.objRegistry_ObjIdToObj⟩
              dctx.heap.length hA hgood1 hfuel1 hinv1 hmetaA
              (by show dctx.heap.length < (dctx.heap ++ [[]]).length
                  rw [List.length_append, List.length_singleton]
                  omega)
            obtain ⟨hgood2, hext2, hkeys2, hinv2, hlen2, hstab2, hatA⟩ := PA
            have hla : lookupN sctx1.objRegistry_NrToObjId a = some (sctx.counter + 1) := by
              obtain ⟨new, hnew⟩ := hext2
              rw [hnew]
              exact lookupN_stable new _ a _ (hnew ▸ hgood2.1) hS1a
            refine ⟨hgood2, ?_, ?_, ?_, hinv2, ?_, ?_⟩
            · obtain ⟨new, hnew⟩ := hext2
              refine ⟨new ++ [(a, sctx.counter + 1)], ?_⟩
              rw [hnew, List.append_assoc]
              rfl
            · intro a2 ha2
              injection ha2 with ha2
              subst ha2
              exact ⟨sctx.counter + 1, hla, Or.inr ⟨attrs1, rfl⟩⟩
            · show SVal.sref dctx.heap.length
                = SVal.sref ((lookupN sctx1.objRegistry_NrToObjId a).getD 1 - 1)
              rw [hla, hinv.2]
              show SVal.sref sctx.counter = SVal.sref (sctx.counter + 1 - 1)
              rw [Nat.add_sub_cancel]
            · refine le_trans ?_ hlen2
              show dctx.heap.length ≤ (dctx.heap ++ [[]]).length
              rw [List.length_append, List.length_singleton]
              omega
            · intro j hj
              rw [hstab2 j (by rw [List.length_append, List.length_singleton]; omega)
                (by omega)]
              exact getD_append_left dctx.heap [[]] [] j hj
          · -- a outside the heap: it has no attributes
            have hnil : h.attrsAt a = [] := by
              unfold ObjHeap.attrsAt
              exact List.getD_eq_default _ _ (by omega)
            rw [hnil, createDescrAttrs] at hA
            injection hA with hA1 hA2
            subst hA1
            subst hA2
            refine ⟨hgood1, ⟨[(a, sctx.counter + 1)], rfl⟩, ?_, ?_, hinv1, ?_, ?_⟩
            · intro a2 ha2
              injection ha2 with ha2
              subst ha2
              exact ⟨sctx.counter + 1, hS1a, Or.inr ⟨[], rfl⟩⟩
            · show SVal.sref dctx.heap.length
                = SVal.sref ((lookupN ((a, sctx.counter + 1) ::
                    sctx.objRegistry_NrToObjId) a).getD 1 - 1)
              rw [hS1a, hinv.2]
              show SVal.sref sctx.counter = SVal.sref (sctx.counter + 1 - 1)
              rw [Nat.add_sub_cancel]
            · show dctx.heap.length ≤ (dctx.heap ++ [[]]).length
              rw [List.length_append, List.length_singleton]
              omega
            · intro j hj
              show (dctx.heap ++ [[]]).getD j [] = dctx.heap.getD j []
              exact getD_append_left dctx.heap [[]] [] j hj
  have pattrs : PAttrs h fuel := by
    unfold PAttrs
    intro attrs
    induction attrs with
    | nil =>
      intro sctx sctx2 attrs2 dctx aIdx hser hgood hfuel hinv hmetaL haIdx
      rw [createDescrAttrs] at hser
      injection hser with h1 h2
      subst h1
      subst h2
      exact ⟨hgood, ⟨[], rfl⟩, rfl, hinv, Nat.le_refl _, fun j _ _ => rfl, rfl⟩
    | cons e rest ihrest =>
      obtain ⟨k, v⟩ := e
      intro sctx sctx2 attrs2 dctx aIdx hser hgood hfuel hinv hmetaL haIdx
      have hmk : metaKey k = false := hmetaL (k, v) (List.mem_cons_self _ _)
      by_cases hsk : serSkipped k = true
      · -- the serializer skips this key, the deserializer never sees it
        rw [createDescrAttrs, if_pos hsk] at hser
        have PA := ihrest sctx sctx2 attrs2 dctx aIdx hser hgood hfuel hinv
          (fun e he => hmetaL e (List.mem_cons_of_mem _ he)) haIdx
        obtain ⟨g1, g2, g3, g4, g5, g6, g7⟩ := PA
        have hrs : restoreSkipped k = true := by
          unfold restoreSkipped
          rw [hsk]
          rfl
        refine ⟨g1, g2, ?_, g4, g5, g6, ?_⟩
        · rw [g3, List.filter_cons]
          simp [hsk]
        · rw [g7, applyTrInserts_cons, if_pos hrs]
      · -- the key is described and restored
        have hsk2 : serSkipped k = false := by
          cases hx : serSkipped k
          · rfl
          · exact absurd hx hsk
        have hrs : restoreSkipped k = false := by
          unfold restoreSkipped
          rw [hsk2, hmk]
          rfl
        rw [createDescrAttrs, if_neg hsk] at hser
        cases hD : createDescrVal h fuel v sctx with
        | mk d1 sctx1 =>
        rw [hD] at hser
        cases hR : createDescrAttrs h fuel rest sctx1 with
        | mk rest1 sctxR =>
        rw [hR] at hser
        injection hser with h1 h2
        subst h1
        subst h2
        have PV := pval v sctx sctx1 d1 dctx hD hgood hfuel hinv
        obtain ⟨hgood1, hext1, hshape1, hv1, hinv1, hlen1, hstab1⟩ := PV
        have hfuel1 : SufFuel h sctx1 fuel := sufFuel_mono h sctx sctx1 fuel hext1 hfuel
        have hinv2 : InvSD sctx1
            ⟨(createObjVal d1 dctx).2.heap.modify
                (fun A => insertA A k (createObjVal d1 dctx).1) aIdx,
              (createObjVal d1 dctx).2.objRegistry_ObjIdToObj⟩ := by
          constructor
          · exact hinv1.1
          · show ((createObjVal d1 dctx).2.heap.modify
                (fun A => insertA A k (createObjVal d1 dctx).1) aIdx).length = _
            rw [length_modify]
            exact hinv1.2
        have haIdx2 : aIdx < ((createObjVal d1 dctx).2.heap.modify
            (fun A => insertA A k (createObjVal d1 dctx).1) aIdx).length := by
          rw [length_modify]
          omega
        have PA := ihrest sctx1 sctxR rest1
          ⟨(createObjVal d1 dctx).2.heap.modify
              (fun A => insertA A k (createObjVal d1 dctx).1) aIdx,
            (createObjVal d1 dctx).2.objRegistry_ObjIdToObj⟩ aIdx hR hgood1 hfuel1 hinv2
          (fun e he => hmetaL e (List.mem_cons_of_mem _ he)) haIdx2
        obtain ⟨g1, g2, g3, g4, g5, g6, g7⟩ := PA
        have hstep : createObjAttrs ((k, d1) :: rest1) aIdx dctx
            = createObjAttrs rest1 aIdx
                ⟨(createObjVal d1 dctx).2.heap.modify
                    (fun A => insertA A k (createObjVal d1 dctx).1) aIdx,
                  (createObjVal d1 dctx).2.objRegistry_ObjIdToObj⟩ := by
          rw [createObjAttrs, if_neg (by simp [hrs])]
        refine ⟨g1, ?_, ?_, ?_, ?_, ?_, ?_⟩
        · obtain ⟨new1, hnew1⟩ := hext1
          obtain ⟨new2, hnew2⟩ := g2
          refine ⟨new2 ++ new1, ?_⟩
          rw [hnew2, hnew1, List.append_assoc]
        · show ((k, d1) :: rest1).map Prod.fst = _
          rw [List.map_cons, g3, List.filter_cons]
          simp [hsk2]
        · rw [hstep]
          exact g4
        · rw [hstep]
          refine le_trans ?_ g5
          rw [length_modify]
          exact hlen1
        · intro j hj hja
          rw [hstep, g6 j (by rw [length_modify]; omega) hja]
          show ((createObjVal d1 dctx).2.heap.modify
              (fun A => insertA A k (createObjVal d1 dctx).1) aIdx).getD j [] = _
          rw [getD_modify_ne _ _ aIdx j [] (fun hc => hja hc.symm)]
          exact hstab1 j hj
        · rw [hstep, g7]
          have hreg1 : ∀ a2, v = SVal.sref a2 →
              ∃ id2, lookupN sctx1.objRegistry_NrToObjId a2 = some id2 := by
            intro a2 ha2
            obtain ⟨id2, hid2, _⟩ := hshape1 a2 ha2
            exact ⟨id2, hid2⟩
          have hmod : ((createObjVal d1 dctx).2.heap.modify
              (fun A => insertA A k (createObjVal d1 dctx).1) aIdx).getD aIdx []
              = insertA (dctx.heap.getD aIdx []) k (trVal sctxR v) := by
            rw [getD_modify_self _ aIdx _ [] (by omega)]
            rw [hstab1 aIdx haIdx, hv1]
            rw [← trVal_stable sctx1 sctxR v g1.1 g2 hreg1]
          rw [hmod, applyTrInserts_cons, if_neg (by simp [hrs])]
  exact ⟨pval, pattrs⟩

theorem createDescrAttrs_append (h : ObjHeap) (fuel : Nat) :
    ∀ (l1 l2 : ObjAttrs) (ctx : SerCtx),
      createDescrAttrs h fuel (l1 ++ l2) ctx =
        ((createDescrAttrs h fuel l1 ctx).1 ++
          (createDescrAttrs h fuel l2 (createDescrAttrs h fuel l1 ctx).2).1,
          (createDescrAttrs h fuel l2 (createDescrAttrs h fuel l1 ctx).2).2) := by
  intro l1
  induction l1 with
  | nil =>
    intro l2 ctx
    rw [List.nil_append]
    conv_rhs => rw [createDescrAttrs]
    rfl
  | cons e rest ih =>
    intro l2 ctx
    obtain ⟨k, v⟩ := e
    rw [List.cons_append]
    by_cases hsk : serSkipped k = true
    · rw [createDescrAttrs, if_pos hsk, ih]
      conv_rhs => rw [createDescrAttrs, if_pos hsk]
    · rw [createDescrAttrs, if_neg hsk, ih]
      conv_rhs => rw [createDescrAttrs, if_neg hsk]
      rw [List.cons_append]

theorem goodReg_len (s : SerCtx) (hg : GoodReg s) :
    s.objRegistry_NrToObjId.length = s.counter := by
  have h1 := congrArg List.length hg.2
  rw [List.length_map, countdown_length] at h1
  exact h1

theorem counter_mono (s s2 : SerCtx) (hg : GoodReg s) (hg2 : GoodReg s2)
    (hext : ∃ new, s2.objRegistry_NrToObjId = new ++ s.objRegistry_NrToObjId) :
    s.counter ≤ s2.counter := by
  obtain ⟨new, hnew⟩ := hext
  have h1 := goodReg_len s hg
  have h2 := goodReg_len s2 hg2
  rw [hnew, List.length_append] at h2
  omega

theorem invSD_canon (s : SerCtx) :
    InvSD s ⟨List.replicate s.counter [], regD s.objRegistry_NrToObjId⟩ := by
  constructor
  · rfl
  · exact List.length_replicate _ _

theorem lookupA_split {V : Type} :
    ∀ (l : List (String × V)) (k : String) (v : V), lookupA l k = some v →
      ∃ m1 m2, l = m1 ++ (k, v) :: m2 ∧ lookupA m1 k = none := by
  intro l
  induction l with
  | nil => intro k v hl; exact absurd hl (by simp [lookupA])
  | cons e rest ih =>
    intro k v hl
    obtain ⟨k0, v0⟩ := e
    rw [lookupA] at hl
    by_cases h0 : k0 = k
    · rw [if_pos h0] at hl
      injection hl with hv
      subst h0
      subst hv
      exact ⟨[], rest, rfl, rfl⟩
    · rw [if_neg h0] at hl
      obtain ⟨m1, m2, heq, hm⟩ := ih k v hl
      refine ⟨(k0, v0) :: m1, m2, by rw [heq]; rfl, ?_⟩
      rw [lookupA, if_neg h0, hm]

theorem lookupA_split_two {V : Type} :
    ∀ (l : List (String × V)) (x y : String) (vx vy : V),
      lookupA l x = some vx → lookupA l y = some vy → x ≠ y →
      (∃ l1 l2, l = l1 ++ (x, vx) :: l2 ∧ lookupA l1 x = none
        ∧ lookupA l2 y = some vy) ∨
      (∃ l1 l2, l = l1 ++ (y, vy) :: l2 ∧ lookupA l1 y = none
        ∧ lookupA l2 x = some vx) := by
  intro l
  induction l with
  | nil => intro x y vx vy hx _ _; exact absurd hx (by simp [lookupA])
  | cons e rest ih =>
    intro x y vx vy hx hy hxy
    obtain ⟨k0, v0⟩ := e
    rw [lookupA] at hx hy
    by_cases h0 : k0 = x
    · rw [if_pos h0] at hx
      injection hx with hvx
      rw [if_neg (by rw [h0]; exact hxy)] at hy
      subst h0
      subst hvx
      exact Or.inl ⟨[], rest, rfl, rfl, hy⟩
    · rw [if_neg h0] at hx
      by_cases h1 : k0 = y
      · rw [if_pos h1] at hy
        injection hy with hvy
        subst h1
        subst hvy
        exact Or.inr ⟨[], rest, rfl, rfl, hx⟩
      · rw [if_neg h1] at hy
        rcases ih x y vx vy hx hy hxy with ⟨l1, l2, heq, hn, hv⟩ | ⟨l1, l2, heq, hn, hv⟩
        · refine Or.inl ⟨(k0, v0) :: l1, l2, by rw [heq]; rfl, ?_, hv⟩
          rw [lookupA, if_neg h0, hn]
        · refine Or.inr ⟨(k0, v0) :: l1, l2, by rw [heq]; rfl, ?_, hv⟩
          rw [lookupA, if_neg h1, hn]

theorem forall_ne_of_keys_filter (l1 : ObjAttrs) (L1 : List (String × Descr)) (k : String)
    (hkeys : L1.map Prod.fst = (l1.filter (fun e => !serSkipped e.1)).map Prod.fst)
    (hk : k ∉ l1.map Prod.fst) : ∀ e ∈ L1, e.1 ≠ k := by
  intro e he hek
  apply hk
  have h1 : k ∈ L1.map Prod.fst := List.mem_map.mpr ⟨e, he, hek⟩
  rw [hkeys] at h1
  obtain ⟨e2, he2, he2k⟩ := List.mem_map.mp h1
  exact List.mem_map.mpr ⟨e2, List.mem_of_mem_filter he2, he2k⟩

/-- Describing an attribute list that references the object at address `a`
under two keys: the target is registered under one context id `id`, the
first of the two attributes is described as either a full description or a
back-reference carrying `id`, and the second one is always the bare
back-reference `##REF##` with the same `id`. -/
theorem describeSharedPair (h : ObjHeap)
    (hmeta : ∀ o ∈ h.objs, ∀ e ∈ o, metaKey e.1 = false)
    (fuel : Nat) (l1 l2 : ObjAttrs) (k1 k2 : String) (a : Nat)
    (sctx sctx2 : SerCtx) (attrs2 : List (String × Descr))
    (hser : createDescrAttrs h fuel (l1 ++ (k1, SVal.sref a) :: l2) sctx
      = (attrs2, sctx2))
    (hgood : GoodReg sctx) (hfuel : SufFuel h sctx fuel) (hc : 1 ≤ sctx.counter)
    (hmetaL : ∀ e ∈ l1 ++ (k1, SVal.sref a) :: l2, metaKey e.1 = false)
    (hk1l1 : lookupA l1 k1 = none)
    (hk2l2 : lookupA l2 k2 = some (SVal.sref a))
    (hk12 : k1 ≠ k2)
    (hk1s : serSkipped k1 = false)
    (hk2s : serSkipped k2 = false)
    (hnd : ((l1 ++ (k1, SVal.sref a) :: l2).map Prod.fst).Nodup) :
    ∃ id, lookupN sctx2.objRegistry_NrToObjId a = some id ∧
      (lookupA attrs2 k1 = some (Descr.dref id)
        ∨ ∃ cA, lookupA attrs2 k1 = some (Descr.dobj id cA)) ∧
      lookupA attrs2 k2 = some (Descr.dref id) := by
  obtain ⟨m1, m2, hl2eq, hm1k2⟩ := lookupA_split l2 k2 _ hk2l2
  subst hl2eq
  rw [createDescrAttrs_append] at hser
  cases hL1 : createDescrAttrs h fuel l1 sctx with
  | mk L1 S1 =>
  rw [hL1] at hser
  rw [createDescrAttrs, if_neg (by simp [hk1s])] at hser
  cases hDV : createDescrVal h fuel (SVal.sref a) S1 with
  | mk dv S2 =>
  rw [hDV] at hser
  rw [createDescrAttrs_append] at hser
  cases hM1 : createDescrAttrs h fuel m1 S2 with
  | mk M1 S2a =>
  rw [hM1] at hser
  -- transport the run invariants across the `l1` stage
  have hcanon1 := (serDesSim h hmeta fuel).2 l1 sctx S1 L1
    ⟨List.replicate sctx.counter [], regD sctx.objRegistry_NrToObjId⟩ 0 hL1 hgood hfuel
    (invSD_canon sctx) (fun e he => hmetaL e (List.mem_append_left _ he))
    (by rw [List.length_replicate]; omega)
  obtain ⟨hgood1, hext1, hkeys1, -, -, -, -⟩ := hcanon1
  have hfuel1 : SufFuel h S1 fuel := sufFuel_mono h sctx S1 fuel hext1 hfuel
  have hc1 : 1 ≤ S1.counter := le_trans hc (counter_mono sctx S1 hgood hgood1 hext1)
  -- the first of the two attributes registers (or finds) the target
  have hpv := (serDesSim h hmeta fuel).1 (SVal.sref a) S1 S2 dv
    ⟨List.replicate S1.counter [], regD S1.objRegistry_NrToObjId⟩ hDV hgood1 hfuel1
    (invSD_canon S1)
  obtain ⟨hgood2, hext2, hshape2, -, -, -, -⟩ := hpv
  obtain ⟨id, hid, hdvshape⟩ := hshape2 a rfl
  have hfuel2 : SufFuel h S2 fuel := sufFuel_mono h S1 S2 fuel hext2 hfuel1
  have hc2 : 1 ≤ S2.counter := le_trans hc1 (counter_mono S1 S2 hgood1 hgood2 hext2)
  -- transport across the `m1` stage
  have hcanonM := (serDesSim h hmeta fuel).2 m1 S2 S2a M1
    ⟨List.replicate S2.counter [], regD S2.objRegistry_NrToObjId⟩ 0 hM1 hgood2 hfuel2
    (invSD_canon S2)
    (fun e he => hmetaL e (List.mem_append_right _
      (List.mem_cons_of_mem _ (List.mem_append_left _ he))))
    (by rw [List.length_replicate]; omega)
  obtain ⟨hgoodA, hextA, hkeysM, -, -, -, -⟩ := hcanonM
  have hfuelA : SufFuel h S2a fuel := sufFuel_mono h S2 S2a fuel hextA hfuel2
  -- the second of the two attributes finds the target registered
  have hidA : lookupN S2a.objRegistry_NrToObjId a = some id := by
    obtain ⟨new, hnew⟩ := hextA
    rw [hnew]
    exact lookupN_stable new _ a id (hnew ▸ hgoodA.1) hid
  rw [createDescrAttrs, if_neg (by simp [hk2s])] at hser
  rw [createDescrVal_sref_seen h fuel a id S2a hidA] at hser
  cases hM2 : createDescrAttrs h fuel m2 S2a with
  | mk M2 S3 =>
  rw [hM2] at hser
  have hser2 : (L1 ++ ((k1, dv) :: (M1 ++ ((k2, Descr.dref id) :: M2))), S3)
      = (attrs2, sctx2) := hser
  injection hser2 with hAeq hSeq
  subst hAeq
  subst hSeq
  -- transport across the `m2` stage for the final registry
  have hcanon2 := (serDesSim h hmeta fuel).2 m2 S2a S3 M2
    ⟨List.replicate S2a.counter [], regD S2a.objRegistry_NrToObjId⟩ 0 hM2 hgoodA hfuelA
    (invSD_canon S2a)
    (fun e he => hmetaL e (List.mem_append_right _
      (List.mem_cons_of_mem _ (List.mem_append_right _ (List.mem_cons_of_mem _ he)))))
    (by
      rw [List.length_replicate]
      have := le_trans hc2 (counter_mono S2 S2a hgood2 hgoodA hextA)
      omega)
  obtain ⟨hgood3, hext3, -, -, -, -, -⟩ := hcanon2
  have hidFinal : lookupN S3.objRegistry_NrToObjId a = some id := by
    obtain ⟨new, hnew⟩ := hext3
    rw [hnew]
    exact lookupN_stable new _ a id (hnew ▸ hgood3.1) hidA
  -- the two lookups in the produced description
  have hk2l1 : k2 ∉ l1.map Prod.fst := by
    intro hk
    have hdisj := List.disjoint_of_nodup_append (by rw [List.map_append] at hnd; exact hnd)
    refine hdisj hk ?_
    show k2 ∈ ((k1, SVal.sref a) :: (m1 ++ ((k2, SVal.sref a) :: m2))).map Prod.fst
    simp
  have hL1ne2 : ∀ e ∈ L1, e.1 ≠ k2 := forall_ne_of_keys_filter l1 L1 k2 hkeys1 hk2l1
  have hM1ne2 : ∀ e ∈ M1, e.1 ≠ k2 := by
    refine forall_ne_of_keys_filter m1 M1 k2 hkeysM ?_
    intro hk
    obtain ⟨e, he, hek⟩ := List.mem_map.mp hk
    exact lookupA_none_ne m1 k2 hm1k2 e he hek
  have hL1ne1 : ∀ e ∈ L1, e.1 ≠ k1 := by
    refine forall_ne_of_keys_filter l1 L1 k1 hkeys1 ?_
    intro hk
    obtain ⟨e, he, hek⟩ := List.mem_map.mp hk
    exact lookupA_none_ne l1 k1 hk1l1 e he hek
  have hlk2 : lookupA (L1 ++ ((k1, dv) :: (M1 ++ ((k2, Descr.dref id) :: M2)))) k2
      = some (Descr.dref id) := by
    rw [lookupA_append_nomem L1 _ k2 hL1ne2]
    rw [lookupA, if_neg hk12]
    rw [lookupA_append_nomem M1 _ k2 hM1ne2]
    rw [lookupA, if_pos rfl]
  have hlk1 : lookupA (L1 ++ ((k1, dv) :: (M1 ++ ((k2, Descr.dref id) :: M2)))) k1
      = some dv := by
    rw [lookupA_append_nomem L1 _ k1 hL1ne1]
    rw [lookupA, if_pos rfl]
  refine ⟨id, hidFinal, ?_, hlk2⟩
  rcases hdvshape with hdr | ⟨cA, hdo⟩
  · subst hdr
    exact Or.inl hlk1
  · subst hdo
    exact Or.inr ⟨cA, hlk1⟩

/-- C5: for every object graph in which two attributes `x` and `y` of a
serialized object reference the same underlying object, serializing with a
fresh `ObjectSerialization.Context` registers the shared target under one
context id, describes the two attributes consistently with that id, and
emits the later occurrence as the bare back-reference `##REF##` (at least
one of the two is a back-reference, never two full descriptions);
reconstructing the description with a fresh context yields a graph in which
both attributes again reference one single shared object — and nothing is
duplicated: the reconstructed heap holds exactly one object per registered
source object.  The graph is arbitrary (nested references, extra
references, cycles and self-references are all allowed); the hypotheses are
only what the program itself imposes: the two keys are not of the skipped
`__`/`##...##` shapes, the serialized object's attribute keys are distinct
(an EScript Map cannot hold duplicate keys), and no attribute key anywhere
uses the reserved `##...##` meta shape (the flat JSON description stores
`##ID##`/`##TYPE##`/`##REF##` in the same map, so such keys are the
serializer's own and are skipped on restore). -/
theorem objectSerialization_shared_ref_roundtrip
    (h : ObjHeap) (p a : Nat) (x y : String)
    (hx : lookupA (h.attrsAt p) x = some (SVal.sref a))
    (hy : lookupA (h.attrsAt p) y = some (SVal.sref a))
    (hxy : x ≠ y)
    (hxk : restoreSkipped x = false) (hyk : restoreSkipped y = false)
    (hnd : ((h.attrsAt p).map Prod.fst).Nodup)
    (hmeta : ∀ o ∈ h.objs, ∀ e ∈ o, metaKey e.1 = false) :
    ∃ descrAttrs id sctx,
      Context.serialize h p = Descr.dobj 1 descrAttrs ∧
      createDescrVal h (h.objs.length + 1) (SVal.sref p) ⟨[], 0⟩
        = (Descr.dobj 1 descrAttrs, sctx) ∧
      (lookupA descrAttrs x = some (Descr.dref id)
        ∨ ∃ cA, lookupA descrAttrs x = some (Descr.dobj id cA)) ∧
      (lookupA descrAttrs y = some (Descr.dref id)
        ∨ ∃ cA, lookupA descrAttrs y = some (Descr.dobj id cA)) ∧
      (lookupA descrAttrs x = some (Descr.dref id)
        ∨ lookupA descrAttrs y = some (Descr.dref id)) ∧
      (Context.createFromDescr (Context.serialize h p)).1 = SVal.sref 0 ∧
      lookupA ((Context.createFromDescr (Context.serialize h p)).2.heap.getD 0 []) x
        = some (SVal.sref (id - 1)) ∧
      lookupA ((Context.createFromDescr (Context.serialize h p)).2.heap.getD 0 []) y
        = some (SVal.sref (id - 1)) ∧
      id - 1 < (Context.createFromDescr (Context.serialize h p)).2.heap.length ∧
      lookupN sctx.objRegistry_NrToObjId a = some id ∧
      (sctx.objRegistry_NrToObjId.map Prod.fst).Nodup ∧
      (Context.createFromDescr (Context.serialize h p)).2.heap.length
        = sctx.objRegistry_NrToObjId.length := by
  have hpN : p < h.objs.length := by
    by_contra hnp
    have hnil : h.attrsAt p = [] := by
      unfold ObjHeap.attrsAt
      exact List.getD_eq_default _ _ (by omega)
    rw [hnil] at hx
    exact absurd hx (by simp [lookupA])
  have hxs : serSkipped x = false := by
    cases hb : serSkipped x
    · rfl
    · exfalso
      unfold restoreSkipped at hxk
      rw [hb] at hxk
      simp at hxk
  have hys : serSkipped y = false := by
    cases hb : serSkipped y
    · rfl
    · exfalso
      unfold restoreSkipped at hyk
      rw [hb] at hyk
      simp at hyk
  -- the root run: the root object is fresh and gets id 1
  have hroot := createDescrVal_sref_new h (h.objs.length + 1) p ⟨[], 0⟩ (by omega) rfl
  simp only [Nat.add_sub_cancel] at hroot
  have hroot2 : createDescrVal h (h.objs.length + 1) (SVal.sref p) ⟨[], 0⟩
      = (Descr.dobj 1
          (createDescrAttrs h h.objs.length (h.attrsAt p) ⟨[(p, 1)], 1⟩).1,
        (createDescrAttrs h h.objs.length (h.attrsAt p) ⟨[(p, 1)], 1⟩).2) := hroot
  cases hA : createDescrAttrs h h.objs.length (h.attrsAt p) ⟨[(p, 1)], 1⟩ with
  | mk attrs1 sctx1 =>
  have hpair : createDescrVal h (h.objs.length + 1) (SVal.sref p) ⟨[], 0⟩
      = (Descr.dobj 1 attrs1, sctx1) := by
    rw [hroot2, hA]
  have hser : Context.serialize h p = Descr.dobj 1 attrs1 := by
    unfold Context.serialize
    rw [hpair]
  -- invariants at the post-registration root context
  have hgood0 : GoodReg ⟨[(p, 1)], 1⟩ := by
    constructor
    · simp
    · rfl
  have hsf0 : SufFuel h ⟨[(p, 1)], 1⟩ h.objs.length := by
    have h1 : regInRange h ⟨[(p, 1)], 1⟩ = 1 := by
      unfold regInRange
      rw [List.filter_cons]
      simp [hpN]
    unfold SufFuel
    rw [h1]
  have hmetaP : ∀ e ∈ h.attrsAt p, metaKey e.1 = false := by
    intro e he
    have hmem : h.attrsAt p ∈ h.objs := by
      unfold ObjHeap.attrsAt
      rw [List.getD_eq_getElem h.objs [] hpN]
      exact List.getElem_mem hpN
    exact hmeta _ hmem e he
  -- the simulation on the whole attribute list
  have hPA := (serDesSim h hmeta h.objs.length).2 (h.attrsAt p) ⟨[(p, 1)], 1⟩ sctx1
    attrs1 ⟨[[]], [(1, 0)]⟩ 0 hA hgood0 hsf0 ⟨rfl, rfl⟩ hmetaP (by simp)
  obtain ⟨hgood1, hext1, hkeys1, hinvF, hlenF, hstabF, hatF⟩ := hPA
  -- the two descriptors share one id; the later one is the back-reference
  have hTriple : ∃ id, lookupN sctx1.objRegistry_NrToObjId a = some id ∧
      (lookupA attrs1 x = some (Descr.dref id)
        ∨ ∃ cA, lookupA attrs1 x = some (Descr.dobj id cA)) ∧
      (lookupA attrs1 y = some (Descr.dref id)
        ∨ ∃ cA, lookupA attrs1 y = some (Descr.dobj id cA)) ∧
      (lookupA attrs1 x = some (Descr.dref id)
        ∨ lookupA attrs1 y = some (Descr.dref id)) := by
    rcases lookupA_split_two (h.attrsAt p) x y _ _ hx hy hxy with
      ⟨l1, l2, heq, hn1, hv2⟩ | ⟨l1, l2, heq, hn1, hv2⟩
    · have hA2 : createDescrAttrs h h.objs.length (l1 ++ ((x, SVal.sref a) :: l2))
          ⟨[(p, 1)], 1⟩ = (attrs1, sctx1) := by
        rw [← heq]
        exact hA
      obtain ⟨id, hidF, hshx, hshy⟩ := describeSharedPair h hmeta h.objs.length l1 l2
        x y a ⟨[(p, 1)], 1⟩ sctx1 attrs1 hA2 hgood0 hsf0 (Nat.le_refl 1)
        (heq ▸ hmetaP) hn1 hv2 hxy hxs hys (heq ▸ hnd)
      exact ⟨id, hidF, hshx, Or.inl hshy, Or.inr hshy⟩
    · have hA2 : createDescrAttrs h h.objs.length (l1 ++ ((y, SVal.sref a) :: l2))
          ⟨[(p, 1)], 1⟩ = (attrs1, sctx1) := by
        rw [← heq]
        exact hA
      obtain ⟨id, hidF, hshy, hshx⟩ := describeSharedPair h hmeta h.objs.length l1 l2
        y x a ⟨[(p, 1)], 1⟩ sctx1 attrs1 hA2 hgood0 hsf0 (Nat.le_refl 1)
        (heq ▸ hmetaP) hn1 hv2 (fun hc => hxy hc.symm) hys hxs (heq ▸ hnd)
      exact ⟨id, hidF, Or.inl hshx, hshy, Or.inl hshx⟩
  obtain ⟨id, hida, hdx, hdy, hdone⟩ := hTriple
  -- the reconstructed root attribute map
  have hxmem : (x, SVal.sref a) ∈ h.attrsAt p := lookupA_mem _ x _ hx
  have hymem : (y, SVal.sref a) ∈ h.attrsAt p := lookupA_mem _ y _ hy
  have htr : trVal sctx1 (SVal.sref a) = SVal.sref (id - 1) := by
    show SVal.sref ((lookupN sctx1.objRegistry_NrToObjId a).getD 1 - 1) = _
    rw [hida]
    rfl
  have hlx : lookupA (applyTrInserts sctx1 ([] : ObjAttrs) (h.attrsAt p)) x
      = some (SVal.sref (id - 1)) := by
    rw [lookupA_applyTrInserts_mem sctx1 (h.attrsAt p) [] x (SVal.sref a) hnd hxmem hxk,
      htr]
  have hly : lookupA (applyTrInserts sctx1 ([] : ObjAttrs) (h.attrsAt p)) y
      = some (SVal.sref (id - 1)) := by
    rw [lookupA_applyTrInserts_mem sctx1 (h.attrsAt p) [] y (SVal.sref a) hnd hymem hyk,
      htr]
  have hdes0 : Context.createFromDescr (Descr.dobj 1 attrs1)
      = (SVal.sref 0, createObjAttrs attrs1 0 ⟨[[]], [(1, 0)]⟩) := by
    unfold Context.createFromDescr
    exact createObjVal_dobj_new 1 attrs1 ⟨[], []⟩ rfl
  have hdesF : Context.createFromDescr (Context.serialize h p)
      = (SVal.sref 0, createObjAttrs attrs1 0 ⟨[[]], [(1, 0)]⟩) := by
    rw [hser]
    exact hdes0
  have hatF2 : (createObjAttrs attrs1 0 ⟨[[]], [(1, 0)]⟩).heap.getD 0 []
      = applyTrInserts sctx1 [] (h.attrsAt p) := hatF
  have hmemId : (a, id) ∈ sctx1.objRegistry_NrToObjId := lookupN_mem _ a id hida
  have hidcd : id ∈ countdown sctx1.counter := by
    rw [← hgood1.2]
    exact List.mem_map.mpr ⟨(a, id), hmemId, rfl⟩
  have hidb := countdown_mem sctx1.counter id hidcd
  refine ⟨attrs1, id, sctx1, hser, hpair, hdx, hdy, hdone, ?_, ?_, ?_, ?_, hida,
    hgood1.1, ?_⟩
  · rw [hdesF]
  · rw [hdesF]
    show lookupA ((createObjAttrs attrs1 0 ⟨[[]], [(1, 0)]⟩).heap.getD 0 []) x = _
    rw [hatF2]
    exact hlx
  · rw [hdesF]
    show lookupA ((createObjAttrs attrs1 0 ⟨[[]], [(1, 0)]⟩).heap.getD 0 []) y = _
    rw [hatF2]
    exact hly
  · rw [hdesF]
    show id - 1 < (createObjAttrs attrs1 0 ⟨[[]], [(1, 0)]⟩).heap.length
    rw [hinvF.2]
    omega
  · rw [hdesF]
    show (createObjAttrs attrs1 0 ⟨[[]], [(1, 0)]⟩).heap.length = _
    rw [hinvF.2]
    exact (goodReg_len sctx1 hgood1).symm

/-- Witness for C5: in the example from the head of
`ObjectSerialization.escript` — the same `dataObject` stored under `data1`
and `data2` — all hypotheses hold and the round trip restores one shared
object. -/
theorem objectSerialization_shared_ref_roundtrip_witness :
    ∃ descrAttrs id sctx,
      Context.serialize exampleHeap 0 = Descr.dobj 1 descrAttrs ∧
      createDescrVal exampleHeap (exampleHeap.objs.length + 1) (SVal.sref 0) ⟨[], 0⟩
        = (Descr.dobj 1 descrAttrs, sctx) ∧
      (lookupA descrAttrs "data1" = some (Descr.dref id)
        ∨ ∃ cA, lookupA descrAttrs "data1" = some (Descr.dobj id cA)) ∧
      (lookupA descrAttrs "data2" = some (Descr.dref id)
        ∨ ∃ cA, lookupA descrAttrs "data2" = some (Descr.dobj id cA)) ∧
      (lookupA descrAttrs "data1" = some (Descr.dref id)
        ∨ lookupA descrAttrs "data2" = some (Descr.dref id)) ∧
      (Context.createFromDescr (Context.serialize exampleHeap 0)).1 = SVal.sref 0 ∧
      lookupA ((Context.createFromDescr
          (Context.serialize exampleHeap 0)).2.heap.getD 0 []) "data1"
        = some (SVal.sref (id - 1)) ∧
      lookupA ((Context.createFromDescr
          (Context.serialize exampleHeap 0)).2.heap.getD 0 []) "data2"
        = some (SVal.sref (id - 1)) ∧
      id - 1 < (Context.createFromDescr
          (Context.serialize exampleHeap 0)).2.heap.length ∧
      lookupN sctx.objRegistry_NrToObjId 1 = some id ∧
      (sctx.objRegistry_NrToObjId.map Prod.fst).Nodup ∧
      (Context.createFromDescr (Context.serialize exampleHeap 0)).2.heap.length
        = sctx.objRegistry_NrToObjId.length :=
  objectSerialization_shared_ref_roundtrip exampleHeap 0 1 "data1" "data2"
    (by decide) (by decide) (by decide) (by decide) (by decide) (by decide)
    (by decide)

end EScriptModel
